import Mathlib

/-!
Verification of the contacts-cleaner deduplication/merge engine.

This file is a shallow embedding, in Lean 4, of the core functions of the
repository (legacy modules `process_contact.py`, `process_name.py`,
`process_phone.py`, `process_address.py`, and the rewritten package under
`src/`), together with theorems settling the frozen claims about them.

Modelling conventions:
* Python dict-shaped contact records are association lists
  `List (String × PyVal)` with insertion-order semantics (Python 3.7+ dicts);
  `PyVal` covers the string / list-of-values shapes the code actually stores.
* External collaborators are parameters:
  - `sm : String → String → ℚ` models `difflib.SequenceMatcher(...).ratio()`
    (a float in [0,1], modelled as an exact rational);
  - `fzGt : String → String → Bool` models the test
    `fuzzywuzzy.fuzz.ratio(a, b) > ratio_nickname_match` (threshold 80);
  - `np : String → Option String` models `phonenumbers` parsing to E.164
    (`none` for unparseable/invalid numbers, covering Python `None`);
  - the Google address-validation HTTP call is a parameter
    `net : Option ApiResult` (`none` covers network errors, non-2xx
    responses and malformed JSON, all of which the code maps to `None`).
* Python floats are modelled as exact rationals; the decisions proved here
  are far from the binary64 rounding boundaries of the literals involved.
* Python `id()`-based identity is modelled by the position of a record in
  the input list (the records of a batch are distinct live objects).
* Python `set` iteration order is unspecified; wherever the code iterates
  over a set in an order-sensitive way, the materialised iteration order is
  an explicit parameter (`SetOrders`), and consistency of such an order with
  the set contents is an explicit predicate.
-/

namespace ContactsCleaner

/-- A Python value as stored in the contact dicts of the legacy pipeline:
either a string or a list of strings (the only shapes the pipeline stores:
scalar fields, and multi-valued fields such as `Telephone`; deeper nesting
never survives `process_contact`). -/
inductive PyVal where
  | str (s : String)
  | list (l : List String)
  deriving DecidableEq, Repr

/-- A contact record of the legacy pipeline: a Python dict modelled as an
insertion-ordered association list with unique keys. -/
abbrev ContactV1 := List (String × PyVal)

/-- Python `repr` of a string (single quotes; the inputs used in this
development contain no quotes or backslashes, so no escaping is modelled). -/
def pyRepr (s : String) : String := "'" ++ s ++ "'"

/-- Python `str(value)`: identity on strings, `repr`-style rendering of
lists (e.g. `['a', 'b']`). -/
def pyStr : PyVal → String
  | .str s => s
  | .list l => "[" ++ String.intercalate ", " (l.map pyRepr) ++ "]"

/-- Python truthiness of a `PyVal`: empty strings and empty lists are falsy. -/
def truthy : PyVal → Bool
  | .str s => !s.isEmpty
  | .list l => !l.isEmpty

/-- Dict lookup `d[k]` / `d.get(k)`: first (unique) binding of the key. -/
def getVal (c : ContactV1) (k : String) : Option PyVal :=
  List.lookup k c

/-- Python `contact.get(k, default)` where a string is expected. -/
def getStrD (c : ContactV1) (k : String) (dflt : String) : String :=
  match getVal c k with
  | some v => pyStr v
  | none => dflt

/-- Python `contact.get(k)` truthiness test `if contact.get(k):`. -/
def getTruthy (c : ContactV1) (k : String) : Bool :=
  match getVal c k with
  | some v => truthy v
  | none => false

/-- Dict assignment `d[k] = v`: update in place if the key exists, else
append the new binding at the end (Python insertion-order semantics). -/
def setVal (c : ContactV1) (k : String) (v : PyVal) : ContactV1 :=
  match c with
  | [] => [(k, v)]
  | (k0, v0) :: rest =>
    if k0 = k then (k0, v) :: rest else (k0, v0) :: setVal rest k v

/-- Python word character for the `\b` boundary of `re`: `[a-zA-Z0-9_]`
(the names handled here are ASCII). -/
def isWordChar (c : Char) : Bool := c.isAlphanum || c = '_'

/-! Character-list implementations of the Python string methods the code
uses (`lower`, `upper`, `strip`, `split`, `replace`, `startswith`,
`endswith`); the inputs handled by this development are ASCII, for which
these agree with Python. -/

/-- Python `str.lower()`. -/
def pyLower (s : String) : String := String.mk (s.toList.map Char.toLower)

/-- Python `str.upper()`. -/
def pyUpper (s : String) : String := String.mk (s.toList.map Char.toUpper)

/-- Python `str.strip()`: drop leading and trailing whitespace. -/
def pyTrim (s : String) : String :=
  String.mk (((s.toList.dropWhile Char.isWhitespace).reverse.dropWhile
    Char.isWhitespace).reverse)

/-- Python `str.startswith(pre)`. -/
def pyStartsWith (s pre : String) : Bool := pre.toList.isPrefixOf s.toList

/-- Python `str.endswith(suf)`. -/
def pyEndsWith (s suf : String) : Bool := suf.toList.isSuffixOf s.toList

/-- Splitting on a single-character separator, keeping empty fragments
(Python `str.split(sep)`); all separators used by the code are single
characters. -/
def splitOnCharList (sep : Char) : List Char → List (List Char)
  | [] => [[]]
  | c :: rest =>
    let r := splitOnCharList sep rest
    if c = sep then [] :: r
    else
      match r with
      | [] => [[c]]
      | h :: t => (c :: h) :: t

/-- String-level wrapper of `splitOnCharList`. -/
def splitOnChar (sep : Char) (s : String) : List String :=
  (splitOnCharList sep s.toList).map String.mk

/-- One non-overlapping left-to-right replacement pass (Python
`str.replace(pat, rep)` for non-empty `pat`), with fuel bounding the scan. -/
def pyReplaceAux (pat rep : List Char) : Nat → List Char → List Char
  | 0, s => s
  | _ + 1, [] => []
  | fuel + 1, c :: rest =>
    if pat.isPrefixOf (c :: rest) then
      rep ++ pyReplaceAux pat rep fuel ((c :: rest).drop pat.length)
    else c :: pyReplaceAux pat rep fuel rest

/-- Python `str.replace(pat, rep)` (non-empty `pat`). -/
def pyReplace (s pat rep : String) : String :=
  String.mk (pyReplaceAux pat.toList rep.toList s.toList.length s.toList)

/-- Whitespace tokenisation scan; `cur` holds the current token reversed. -/
def wsTokensAux (cur : List Char) : List Char → List (List Char)
  | [] => if cur.isEmpty then [] else [cur.reverse]
  | c :: rest =>
    if c.isWhitespace then
      if cur.isEmpty then wsTokensAux [] rest
      else cur.reverse :: wsTokensAux [] rest
    else wsTokensAux (c :: cur) rest

/-- Python `str.split()` with no argument: split on whitespace runs,
discarding empty fragments. -/
def pySplitWs (s : String) : List String :=
  (wsTokensAux [] s.toList).map String.mk

/-- Python `str.title()` over ASCII: the first letter of each alphabetic run
is upper-cased and the following letters are lower-cased. -/
def pyTitle (s : String) : String :=
  String.mk (go false s.toList)
where
  /-- Title-casing scan; the flag records whether the previous character was
  alphabetic. -/
  go : Bool → List Char → List Char
    | _, [] => []
    | prevAlpha, c :: rest =>
      if c.isAlpha then
        (if prevAlpha then c.toLower else c.toUpper) :: go true rest
      else
        c :: go false rest

/-- Python `needle in hay` on strings: substring test. -/
def strIn (needle hay : String) : Bool :=
  hay.toList.tails.any (fun t => needle.toList.isPrefixOf t)

/-- Python `str.rstrip(".")`: drop trailing period characters. -/
def rstripDot (s : String) : String :=
  String.mk (s.toList.reverse.dropWhile (fun c => c = '.')).reverse

/-! ### Phone normalization (`process_phone.py`, legacy version) -/

/-- `re.sub(r"^00", "+", phone)`: a leading `00` becomes `+`. -/
def replaceLeading00 (s : String) : String :=
  if pyStartsWith s "00" then "+" ++ s.drop 2 else s

/-- `normalize_phone` of `process_phone.py`. The `phonenumbers` library is
the parameter `np` (parse + validity check + E.164 formatting); `none`
covers both Python `None` results and the falsy-empty-input early return,
which every caller treats alike (`if normalized_number:` / `if not n1:`). -/
def normalize_phone (np : String → Option String) (phone : String) : Option String :=
  if phone.isEmpty then none else np (replaceLeading00 phone)

/-- `normalize_phone_list` of `process_phone.py`: iterates the given
sequence, flattens one level of list nesting, normalizes each string
element and keeps the parseable results in order. No deduplication is
performed. -/
def normalize_phone_list (np : String → Option String) : List PyVal → List String
  | [] => []
  | .list l :: rest =>
    l.filterMap (fun sub => normalize_phone np (pyTrim sub)) ++ normalize_phone_list np rest
  | .str s :: rest =>
    match normalize_phone np (pyTrim s) with
    | some n => n :: normalize_phone_list np rest
    | none => normalize_phone_list np rest

/-- The value of `contact.get("Telephone", "")` as the sequence Python
iterates over inside `normalize_phone_list`: iterating a string yields its
one-character substrings; iterating a list yields its elements. -/
def telephoneSeq (c : ContactV1) : List PyVal :=
  match getVal c "Telephone" with
  | none => []
  | some (.str s) => s.toList.map (fun ch => PyVal.str (String.mk [ch]))
  | some (.list l) => l.map PyVal.str

/-! ### Phone normalization (`src/processors/phone.py`, PhoneProcessor) -/

/-- `re.sub(r"[^\d+]", "", str(phone))`: keep only digits and plus signs. -/
def cleanPhoneChars (s : String) : String :=
  String.mk (s.toList.filter (fun c => c.isDigit || c = '+'))

/-- `PhoneProcessor.normalize_phone`: clean, then parse/format via the
`phonenumbers` parameter `np`; on parse failure the cleaned string itself is
returned (possibly empty). The memoisation cache is omitted: it only caches
this pure computation. -/
def pp_normalize_phone (np : String → Option String) (phone : String) : String :=
  if phone.isEmpty then "" else
    let cleaned := cleanPhoneChars phone
    match np cleaned with
    | some e164 => e164
    | none => cleaned

/-- Input shape of `PhoneProcessor.normalize_phone_list`: a single string or
a list of strings. -/
inductive PhonesInput where
  | str (s : String)
  | list (l : List String)
  deriving DecidableEq, Repr

/-- The dedup-by-first-occurrence loop shared by the PhoneProcessor
normalizer (`if norm and norm not in seen`). -/
def dedupKeep (seen : List String) : List String → List String
  | [] => []
  | x :: rest =>
    if !x.isEmpty && !seen.contains x then x :: dedupKeep (x :: seen) rest
    else dedupKeep seen rest

/-- `PhoneProcessor.normalize_phone_list`: falsy input gives `[]`; a string
is split on commas after replacing semicolons by commas and each fragment is
stripped; each entry is normalized and kept once per canonical form, in
first-seen order. -/
def pp_normalize_phone_list (np : String → Option String) (phones : PhonesInput) : List String :=
  match phones with
  | .str s =>
    if s.isEmpty then []
    else dedupKeep [] ((splitOnChar ',' (pyReplace s ";" ",")).map (fun t => pp_normalize_phone np (pyTrim t)))
  | .list l =>
    if l.isEmpty then []
    else dedupKeep [] (l.map (pp_normalize_phone np))

/-! ### Title stripping in `is_duplicate` (`process_contact.py`)

`re.sub(rf"\b{title}\b\.?\s*", "", name)` for each honorific `title`: a
whole-word occurrence of the title, an optional following period and any
following whitespace are deleted.  Matches are located in the original
string, left to right and non-overlapping, exactly as `re.sub` does. -/

/-- Try to match `title \b \.? \s*` at the current position (the `\b` before
the title is checked by the caller).  On success, return the last consumed
character together with the remaining input. -/
def matchTitleAt (title : List Char) (s : List Char) : Option (Char × List Char) :=
  if title.isPrefixOf s then
    let rest := s.drop title.length
    match rest with
    | [] => (title.getLast?).map (fun c => (c, []))
    | c :: rest2 =>
      if isWordChar c then none
      else if c = '.' then some (consumeWs '.' rest2)
      else if c.isWhitespace then some (consumeWs c rest)
      else (title.getLast?).map (fun last => (last, rest))
  else none
where
  /-- Consume the `\s*` run, remembering the last consumed character. -/
  consumeWs (last : Char) : List Char → Char × List Char
    | [] => (last, [])
    | c :: rest => if c.isWhitespace then consumeWs c rest else (last, c :: rest)

/-- One `re.sub` pass deleting all matches of `\b title \b \.? \s*`.
`prev` is the character of the original string immediately before the
current position (`none` at the start); fuel bounds the recursion. -/
def subTitleAux (title : List Char) : Nat → Option Char → List Char → List Char
  | 0, _, s => s
  | _ + 1, _, [] => []
  | fuel + 1, prev, c :: rest =>
    if prev.all (fun p => !isWordChar p) then
      match matchTitleAt title (c :: rest) with
      | some (last, remaining) => subTitleAux title fuel (some last) remaining
      | none => c :: subTitleAux title fuel (some c) rest
    else
      c :: subTitleAux title fuel (some c) rest

/-- `re.sub(rf"\b{title}\b\.?\s*", "", name)`. -/
def subTitle (name : String) (title : String) : String :=
  String.mk (subTitleAux title.toList name.toList.length none name.toList)

/-- The honorific set of `is_duplicate`, written in source order. Python
iterates this `set` in an unspecified order; removal of distinct whole
words is order-independent for the names considered here, and no theorem
below depends on the order. -/
def dupTitles : List String :=
  ["prof", "dr", "professor", "mr", "mrs", "ms", "phd", "md", "i", "ii", "iii", "iv", "v"]

/-- The title-stripping loop of `is_duplicate` applied to one name. -/
def stripTitles (name : String) : String :=
  dupTitles.foldl subTitle name

/-! ### Name processing (`process_name.py` with `config.py` constants) -/

/-- `config.NAME_SUFFIXES` (a Python set; membership tests are exact). -/
def NAME_SUFFIXES : List String := ["II", "III", "IV", "MD", "PhD", "Jr", "Sr"]

/-- `config.NAME_PREFIXES` (a Python set; membership tests are exact, so the
upper-cased probes of the code never match these mixed-case entries). -/
def NAME_PREFIXES : List String := ["Dr", "Prof", "Mr", "Mrs", "Ms"]

/-- `config.NAME_PARTICLES`. -/
def NAME_PARTICLES : List String := ["von", "van", "de", "la", "das", "dos", "der", "den"]

/-- Python `str.capitalize()`: first character upper-cased, the rest
lower-cased. -/
def pyCapitalize (s : String) : String :=
  match s.toList with
  | [] => ""
  | c :: rest => String.mk (c.toUpper :: rest.map Char.toLower)

/-- The hyphen-free case of `cap_part` inside `capitalize_name`. -/
def capPartPlain (part : String) : String :=
  if NAME_SUFFIXES.contains (pyUpper part) then pyUpper part
  else if NAME_PREFIXES.contains (rstripDot (pyUpper part)) then pyUpper part
  else if NAME_PARTICLES.contains (pyLower part) then pyLower part
  else if part.length > 1 then pyUpper (part.take 1) ++ part.drop 1
  else pyCapitalize part

/-- `cap_part`: hyphenated parts are re-capitalized per hyphen component. -/
def capPart (part : String) : String :=
  if strIn "-" part then
    String.intercalate "-" ((splitOnChar '-' part).map capPartPlain)
  else capPartPlain part

/-- `capitalize_name` of `process_name.py`. -/
def capitalize_name (name : String) : String :=
  String.intercalate " " ((pySplitWs name).map capPart)

/-- `normalize_name_order` inside `merge_names`: `"Last, First"` with
exactly two comma parts becomes `"First Last"`. -/
def normalize_name_order (name : String) : String :=
  if strIn "," name then
    let parts := (splitOnChar ',' name).map pyTrim
    match parts with
    | [p0, p1] => p1 ++ " " ++ p0
    | _ => name
  else name

/-- `normalize_name` inside `merge_names`: whitespace-split the name and
join fragments with trailing/leading hyphens into single hyphenated parts. -/
def normalize_name (name : String) : List String :=
  let step := fun (st : List String × List String) (part : String) =>
    let (parts, current) := st
    if pyEndsWith part "-" then (parts, current ++ [part.dropRight 1])
    else if pyStartsWith part "-" then
      (parts ++ [String.intercalate "-" (current ++ [part.drop 1])], [])
    else if current.isEmpty then (parts ++ [part], current)
    else (parts, current ++ [part])
  let (parts, current) := (pySplitWs name).foldl step ([], [])
  if current.isEmpty then parts else parts ++ [String.intercalate "-" current]

/-- Association-list insertion with overwrite, modelling Python dict
comprehension semantics (`{part.lower(): i for i, part in enumerate(...)}`:
a repeated key keeps the last index). -/
def assocPut (m : List (String × Nat)) (k : String) (v : Nat) : List (String × Nat) :=
  match m with
  | [] => [(k, v)]
  | (k0, v0) :: rest => if k0 = k then (k0, v) :: rest else (k0, v0) :: assocPut rest k v

/-- `get_position_map` inside `merge_names`. -/
def get_position_map (name : String) : List (String × Nat) :=
  let step := fun (parts : List String) (part : String) =>
    if pyEndsWith part "-" then parts
    else if pyStartsWith part "-" then
      match parts.reverse with
      | [] => parts
      | lastPart :: revRest => ((lastPart ++ part) :: revRest).reverse
    else parts ++ [part]
  let parts := (pySplitWs name).foldl step []
  (parts.enum.map (fun pi => (pyLower pi.2, pi.1))).foldl
    (fun m kv => assocPut m kv.1 kv.2) []

/-- `min(pos1.get(x, inf), pos2.get(x, inf))`: the sort key of the retained
parts; `none` plays the role of `float("inf")`. -/
def posKey (pos1 pos2 : List (String × Nat)) (x : String) : Option Nat :=
  match List.lookup (pyLower x) pos1, List.lookup (pyLower x) pos2 with
  | none, none => none
  | some i, none => some i
  | none, some j => some j
  | some i, some j => some (min i j)

/-- Comparison of sort keys (`none` = infinity). -/
def posKeyLe : Option Nat → Option Nat → Bool
  | _, none => true
  | none, some _ => false
  | some a, some b => a ≤ b

/-- Stable insertion into a sorted list: the new element goes after every
element whose key is less than or equal to its own, as Python's stable sort
orders ties. -/
def insertStable (le : α → α → Bool) (x : α) : List α → List α
  | [] => [x]
  | y :: rest => if le y x then y :: insertStable le x rest else x :: y :: rest

/-- Stable ascending sort (the semantics of Python `list.sort(key=...)`). -/
def sortStable (le : α → α → Bool) (l : List α) : List α :=
  l.foldl (fun acc x => insertStable le x acc) []

/-- `is_name_variant` inside `merge_names`; `fzGt a b` models
`fuzz.ratio(a, b) > ratio_nickname_match` for the external fuzzywuzzy
scorer (threshold 80 from `config.py`). -/
def is_name_variant (fzGt : String → String → Bool) (short long : String) : Bool :=
  let short := pyLower short
  let long := pyLower long
  if ["dr.", "dr", "md", "phd"].any (fun x => x = short || x = long) then false
  else strIn short long || pyStartsWith long short || fzGt short long

/-- `is_initial` inside `merge_names`: a single letter optionally followed
by periods. -/
def is_initial (text : String) : Bool :=
  let t := rstripDot text
  t.length = 1 && t.toList.all Char.isAlpha

/-- `keep_initial` inside `merge_names`: drop an initial when a retained
part longer than one character already starts with the same letter. -/
def keep_initial (part : String) (all_parts : List String) : Bool :=
  let ini := pyLower (rstripDot part)
  !(all_parts.any (fun p => pyStartsWith (pyLower p) ini && p.length > 1))

/-- The variant scan of `add_part`: walk the retained parts; at the first
part judged a variant (in either direction), stop — replacing it by the new
part when the new part is strictly longer and the replacement is not an
initial-for-non-initial swap. `none` means no variant was found. -/
def addPartScan (fzGt : String → String → Bool) (part : String) :
    List String → Option (List String)
  | [] => none
  | existing :: rest =>
    if is_name_variant fzGt existing part then
      some (if part.length > existing.length &&
              !(is_initial existing && !is_initial part)
            then part :: rest else existing :: rest)
    else if is_name_variant fzGt part existing then some (existing :: rest)
    else (addPartScan fzGt part rest).map (fun l => existing :: l)

/-- `add_part` inside `merge_names`; the state is `(all_parts, seen)`. -/
def add_part (fzGt : String → String → Bool) (st : List String × List String)
    (part : String) : List String × List String :=
  let (all_parts, seen) := st
  if seen.contains (pyLower part) then st
  else if is_initial part && !keep_initial part all_parts then st
  else
    match addPartScan fzGt part all_parts with
    | some newParts => (newParts, seen)
    | none => (all_parts ++ [part], seen ++ [pyLower part])

/-- The part-classification loop body of `merge_names`: prefixes and
suffixes are collected apart (first occurrence kept), every other part goes
through `add_part`. -/
def mergeStep (fzGt : String → String → Bool)
    (st : List String × List String × (List String × List String))
    (part : String) : List String × List String × (List String × List String) :=
  let (prefParts, sufParts, inner) := st
  let partUpper := rstripDot (pyUpper part)
  if NAME_PREFIXES.contains partUpper then
    (if prefParts.contains part then prefParts else prefParts ++ [part], sufParts, inner)
  else if NAME_SUFFIXES.contains partUpper then
    (prefParts, if sufParts.contains part then sufParts else sufParts ++ [part], inner)
  else
    (prefParts, sufParts, add_part fzGt inner part)

/-- `merge_names` of `process_name.py`: merge two names preserving relative
ordering and structure. -/
def merge_names (fzGt : String → String → Bool) (name1 name2 : String) : String :=
  let name1 := normalize_name_order name1
  let name2 := normalize_name_order name2
  let parts1 := normalize_name name1
  let parts2 := normalize_name name2
  let pos1 := get_position_map (String.intercalate " " parts1)
  let pos2 := get_position_map (String.intercalate " " parts2)
  let (prefParts, sufParts, allSeen) :=
    (parts1 ++ parts2).foldl (mergeStep fzGt) ([], [], ([], []))
  let sorted := sortStable (fun a b => posKeyLe (posKey pos1 pos2 a) (posKey pos1 pos2 b))
    allSeen.1
  capitalize_name (String.intercalate " " (prefParts ++ sorted ++ sufParts))

/-- `get_contact_name` of `process_name.py`:
`contact.get("Full Name", contact.get("Name", "Unknown"))`. The callers
immediately use the value as a string. -/
def get_contact_name (c : ContactV1) : String :=
  match getVal c "Full Name" with
  | some v => pyStr v
  | none =>
    match getVal c "Name" with
    | some v => pyStr v
    | none => "Unknown"

/-- `generate_pseudo_name` of `process_name.py`: email local part with dots
as spaces, title-cased; else the first phone; else the organization; else
the literal `"Unknown"`. -/
def generate_pseudo_name (c : ContactV1) : String :=
  if getTruthy c "Email" then
    let email :=
      match getVal c "Email" with
      | some (.list l) => l.headD ""
      | some (.str s) => s
      | none => ""
    pyTitle (pyReplace ((splitOnChar '@' email).headD "") "." " ")
  else if getTruthy c "Telephone" then
    match getVal c "Telephone" with
    | some (.list l) => l.headD ""
    | some (.str s) => s
    | none => ""
  else if getTruthy c "Organization" then getStrD c "Organization" ""
  else "Unknown"

/-- `validate_contact` of `process_contact.py`: fill a falsy `Full Name`
with the pseudo-name, then fill a falsy `Name` from `Full Name`. -/
def validate_contact (c : ContactV1) : ContactV1 :=
  let c1 :=
    if getTruthy c "Full Name" then c
    else setVal c "Full Name" (.str (generate_pseudo_name c))
  if getTruthy c1 "Name" then c1
  else
    let fn := match getVal c1 "Full Name" with
      | some v => v
      | none => .str "Unknown"
    setVal c1 "Name" fn

/-! ### Duplicate detection (`process_contact.py`) -/

/-- `string_similarity` of `process_contact.py`; `sm` is the external
`difflib.SequenceMatcher(...).ratio()` capability as an exact rational. -/
def string_similarity (sm : String → String → ℚ) (s1 s2 : String) : ℚ :=
  if s1.isEmpty || s2.isEmpty then 0 else sm (pyLower s1) (pyLower s2)

/-- The name-token list of `is_duplicate`: lower-case the contact's name,
strip honorific titles, whitespace-split, keep tokens longer than 2
characters. -/
def dupNameParts (c : ContactV1) : List String :=
  (pySplitWs (stripTitles (pyLower (get_contact_name c)))).filter (fun p => p.length > 2)

/-- The matching-pair count of `is_duplicate`:
`sum(1 for p1 in parts1 for p2 in parts2 if p1 == p2 or similarity > 0.8)`. -/
def matching_parts (sm : String → String → ℚ) (parts1 parts2 : List String) : Nat :=
  (parts1.map (fun p1 =>
    parts2.countP (fun p2 => p1 == p2 || decide (string_similarity sm p1 p2 > Rat.divInt 8 10)))).sum

/-- The name-match fraction of `is_duplicate`:
`matching_parts / max(len(parts1), len(parts2))`, `0` when both are empty
(modelled as an exact rational). -/
def nameMatchFrac (sm : String → String → ℚ) (c1 c2 : ContactV1) : ℚ :=
  let parts1 := dupNameParts c1
  let parts2 := dupNameParts c2
  let total := max parts1.length parts2.length
  if total > 0 then Rat.divInt (matching_parts sm parts1 parts2) total else 0

/-- The phone evidence of `is_duplicate`: both normalized phone sets
non-empty and intersecting. -/
def havePhoneMatch (np : String → Option String) (c1 c2 : ContactV1) : Bool :=
  let phones1 := normalize_phone_list np (telephoneSeq c1)
  let phones2 := normalize_phone_list np (telephoneSeq c2)
  !phones1.isEmpty && !phones2.isEmpty && phones1.any (fun p => phones2.contains p)

/-- `is_duplicate` of `process_contact.py` (cache-free path): match iff
(phones intersect and the name fraction is at least `0.33`) or the name
fraction is at least `0.67` — the decimal literals of the source. -/
def is_duplicate (sm : String → String → ℚ) (np : String → Option String)
    (c1 c2 : ContactV1) : Bool :=
  if c1.isEmpty || c2.isEmpty then false
  else
    (havePhoneMatch np c1 c2 && decide (nameMatchFrac sm c1 c2 ≥ Rat.divInt 33 100)) ||
      decide (nameMatchFrac sm c1 c2 ≥ Rat.divInt 67 100)

/-- The duplicate decision as the specification states it: thresholds `1/3`
and `2/3` over the same token pipeline. This definition follows the spec's
words and is compared against `is_duplicate`, which follows the source. -/
def is_duplicate_spec (sm : String → String → ℚ) (np : String → Option String)
    (c1 c2 : ContactV1) : Bool :=
  if c1.isEmpty || c2.isEmpty then false
  else
    (havePhoneMatch np c1 c2 && decide (nameMatchFrac sm c1 c2 ≥ Rat.divInt 1 3)) ||
      decide (nameMatchFrac sm c1 c2 ≥ Rat.divInt 2 3)

/-- The memo cache of a merge run: sorted identity pair → decision. -/
abbrev DupCache := List ((Nat × Nat) × Bool)

/-- `is_duplicate` with the memo cache (`comparison_cache` argument):
falsy-contact short-circuit, then lookup under the sorted identity pair,
else compute and store. `id1`, `id2` are the Python `id(...)` values
(modelled as batch positions). -/
def is_duplicate_cached (sm : String → String → ℚ) (np : String → Option String)
    (cache : DupCache) (id1 id2 : Nat) (c1 c2 : ContactV1) : Bool × DupCache :=
  if c1.isEmpty || c2.isEmpty then (false, cache)
  else
    let key := (min id1 id2, max id1 id2)
    match List.lookup key cache with
    | some v => (v, cache)
    | none =>
      let r := is_duplicate sm np c1 c2
      (r, (key, r) :: cache)

/-- `calculate_match_confidence` of `process_contact.py`: additive weighted
score over email equality and fuzzy field similarities, clamped to 1. -/
def calculate_match_confidence (sm : String → String → ℚ) (c1 c2 : ContactV1) : ℚ :=
  let emailScore : ℚ :=
    if getTruthy c1 "Email" && getTruthy c2 "Email" &&
        (pyLower (getStrD c1 "Email" "") == pyLower (getStrD c2 "Email" "")) then 1 else 0
  let fullScore : ℚ :=
    let f1 := getStrD c1 "Full Name" ""
    let f2 := getStrD c2 "Full Name" ""
    if !f1.isEmpty && !f2.isEmpty then
      let s := string_similarity sm f1 f2
      if s > 9/10 then 1 * s else 0
    else 0
  let firstLastScore : ℚ :=
    let first1 := getStrD c1 "FirstName" ""
    let first2 := getStrD c2 "FirstName" ""
    let last1 := getStrD c1 "LastName" ""
    let last2 := getStrD c2 "LastName" ""
    if !first1.isEmpty && !first2.isEmpty && !last1.isEmpty && !last2.isEmpty then
      let fs := string_similarity sm first1 first2
      let ls := string_similarity sm last1 last2
      if fs > 8/10 && ls > 8/10 then 9/10 * ((fs + ls) / 2) else 0
    else 0
  let orgScore : ℚ :=
    let o1 := getStrD c1 "Organization" ""
    let o2 := getStrD c2 "Organization" ""
    if !o1.isEmpty && !o2.isEmpty then
      let s := string_similarity sm o1 o2
      if s > 8/10 then 3/10 * s else 0
    else 0
  let addrScore : ℚ :=
    ([("ADR_Street", (3 : ℚ)/10), ("ADR_Locality", 2/10),
      ("ADR_PostalCode", 3/10), ("ADR_Country", 1/10)].map (fun fw =>
        let v1 := getStrD c1 fw.1 ""
        let v2 := getStrD c2 fw.1 ""
        if !v1.isEmpty && !v2.isEmpty then
          let s := string_similarity sm v1 v2
          if s > 8/10 then fw.2 * s else 0
        else 0)).sum
  min 1 (emailScore + fullScore + firstLastScore + orgScore + addrScore)

/-! ### Group merging (`merge_contact_group` of `process_contact.py`)

The function iterates several Python `set`s whose iteration order is
unspecified (hash-dependent).  Each such set is materialised here as an
explicit enumeration parameter (`SetOrders`); `ordersConsistent` states that
an enumeration lists exactly the elements the code would have put into the
set, each once. -/

/-- First-occurrence deduplication (the contents of a Python set in
first-insertion order; used as the canonical enumeration). -/
def dedupList (l : List String) : List String := go [] l
where
  /-- Scan keeping the first occurrence of each element. -/
  go (seen : List String) : List String → List String
    | [] => []
    | x :: rest => if seen.contains x then go seen rest else x :: go (x :: seen) rest

/-- Elements the code adds to `first_names` for one contact: the
comma-split `FirstName` fragments and the first-name side of a split
`Full Name`. -/
def firstNamesOf (d : ContactV1) : List String :=
  let fromFirst :=
    if getTruthy d "FirstName" then
      ((splitOnChar ',' (pyReplace (getStrD d "FirstName" "") "\\," ",")).map pyTrim)
    else []
  let fromFull :=
    if getTruthy d "Full Name" then
      let full := pyReplace (getStrD d "Full Name" "") "\\," ","
      if strIn "," full then
        match (splitOnChar ',' full).map pyTrim with
        | [_, p1] => [p1]
        | _ => []
      else
        let parts := pySplitWs full
        if parts.length > 1 then [String.intercalate " " (parts.dropLast)] else []
    else []
  fromFirst ++ fromFull

/-- Elements the code adds to `last_names` for one contact. -/
def lastNamesOf (d : ContactV1) : List String :=
  let fromLast :=
    if getTruthy d "LastName" then
      ((splitOnChar ',' (pyReplace (getStrD d "LastName" "") "\\," ",")).map pyTrim)
    else []
  let fromFull :=
    if getTruthy d "Full Name" then
      let full := pyReplace (getStrD d "Full Name" "") "\\," ","
      if strIn "," full then
        match (splitOnChar ',' full).map pyTrim with
        | [p0, _] => [p0]
        | _ => []
      else
        let parts := pySplitWs full
        if parts.length > 1 then [(parts.getLast?).getD ""] else []
    else []
  fromLast ++ fromFull

/-- The contents of the `first_names` set over a cluster. -/
def collectedFirstNames (dups : List ContactV1) : List String :=
  dedupList (dups.foldl (fun acc d => acc ++ firstNamesOf d) [])

/-- The contents of the `last_names` set over a cluster. -/
def collectedLastNames (dups : List ContactV1) : List String :=
  dedupList (dups.foldl (fun acc d => acc ++ lastNamesOf d) [])

/-- The contents of the `all_names[key]` set over a cluster: truthy values
of the key, one per distinct value. -/
def collectedAllNames (dups : List ContactV1) (key : String) : List String :=
  dedupList (dups.filterMap (fun d =>
    match getVal d key with
    | some v => if truthy v then some (pyStr v) else none
    | none => none))

/-- Materialised iteration orders of the Python sets used by
`merge_contact_group`. -/
structure SetOrders where
  firstNames : List String
  lastNames : List String
  fullNameAll : List String
  firstNameAll : List String
  lastNameAll : List String
  nameAll : List String
  structuredNameAll : List String
  deriving Repr

/-- An enumeration lists exactly the canonical set contents, each once. -/
def sameSetB (l1 l2 : List String) : Bool :=
  decide l1.Nodup && l1.all (fun s => l2.contains s) && l2.all (fun s => l1.contains s)

/-- Consistency of all seven materialised iteration orders with the sets
the code builds from the cluster. -/
def ordersConsistent (o : SetOrders) (dups : List ContactV1) : Bool :=
  sameSetB o.firstNames (collectedFirstNames dups) &&
  sameSetB o.lastNames (collectedLastNames dups) &&
  sameSetB o.fullNameAll (collectedAllNames dups "Full Name") &&
  sameSetB o.firstNameAll (collectedAllNames dups "FirstName") &&
  sameSetB o.lastNameAll (collectedAllNames dups "LastName") &&
  sameSetB o.nameAll (collectedAllNames dups "Name") &&
  sameSetB o.structuredNameAll (collectedAllNames dups "Structured Name")

/-- The pairwise name-reduction loop:
`first = next(iter(s)); for name in s: if name != first: first = merge_names(first, name)`. -/
def reduceNames (fzGt : String → String → Bool) (l : List String) : String :=
  match l with
  | [] => ""
  | h :: _ => l.foldl (fun acc n => if n ≠ acc then merge_names fzGt acc n else acc) h

/-- One assignment of the generic field-merge loop: a fresh key stores the
stripped string; an existing scalar becomes a two-element list; an existing
list is appended to. -/
def addMergeField (m : ContactV1) (k : String) (v : String) : ContactV1 :=
  match getVal m k with
  | none => setVal m k (.str v)
  | some (.str old) => setVal m k (.list [old, v])
  | some (.list old) => setVal m k (.list (old ++ [v]))

/-- The generic field-merge loop of `merge_contact_group` for one contact:
each truthy, non-blank value is stringified, stripped and merged in. -/
def mergeFieldsOf (m : ContactV1) (d : ContactV1) : ContactV1 :=
  d.foldl (fun m kv =>
    if truthy kv.2 && !(pyTrim (pyStr kv.2)).isEmpty then
      addMergeField m kv.1 (pyTrim (pyStr kv.2))
    else m) m

/-- The `Telephone` post-processing of `merge_contact_group`: when the key
is present, wrap a scalar into a list, normalize every entry and keep each
canonical form once, in first-seen order. -/
def phoneNormalizeStep (np : String → Option String) (m : ContactV1) : ContactV1 :=
  match getVal m "Telephone" with
  | none => m
  | some v =>
    let phoneVals : List PyVal :=
      match v with
      | .list l => l.map PyVal.str
      | .str s => [.str s]
    setVal m "Telephone" (.list (dedupList (normalize_phone_list np phoneVals)))

/-- Result of `merge_contact_group`: the merged dict and the per-member
confidence scores (whose geometric mean the code stores under
`"Match Confidence"`; see `matchConfidence`). -/
structure MergedResult where
  fields : ContactV1
  confidenceScores : List ℚ
  deriving Repr

/-- `merged_contact["Match Confidence"]`:
`prod(confidence_scores) ** (1 / len(confidence_scores))` if any scores
were collected, else `0` — the geometric mean, as a real number. -/
noncomputable def matchConfidence (scores : List ℚ) : ℝ :=
  if scores.isEmpty then 0 else (scores.prod : ℝ) ^ ((1 : ℝ) / scores.length)

/-- `merge_contact_group` of `process_contact.py`.  `ords` materialises the
set iteration orders; `fzGt`, `sm`, `np` are the external fuzzy/similarity/
phone capabilities.  The address-validation argument only affects fields not
modelled here (the `Address` key is reset to `[]` before the loop and no
claim touches address enrichment inside this function). -/
def merge_contact_group (fzGt : String → String → Bool) (sm : String → String → ℚ)
    (np : String → Option String) (ords : SetOrders) (dups : List ContactV1) :
    MergedResult :=
  -- first/last-name merging from the materialised sets
  let m0 : ContactV1 := []
  let m1 := if !ords.firstNames.isEmpty then
      setVal m0 "FirstName" (.str (reduceNames fzGt ords.firstNames)) else m0
  let m2 := if !ords.lastNames.isEmpty then
      setVal m1 "LastName" (.str (reduceNames fzGt ords.lastNames)) else m1
  -- full-name reassembly from the merged components
  let m3 :=
    if !ords.firstNames.isEmpty || !ords.lastNames.isEmpty then
      let parts :=
        (if getTruthy m2 "FirstName" then [getStrD m2 "FirstName" ""] else []) ++
        (if getTruthy m2 "LastName" then [getStrD m2 "LastName" ""] else [])
      let full := String.intercalate " " parts
      setVal (setVal m2 "Full Name" (.str full)) "Name" (.str full)
    else m2
  let m4 := setVal m3 "Address" (.list [])
  -- generic field merge over every member
  let m5 := dups.foldl mergeFieldsOf m4
  -- confidence score of each member against the first member
  let scores := dups.map (fun d => calculate_match_confidence sm (dups.headD []) d)
  -- overwrite of the name keys by the joined name-variant sets
  let joinAll := fun (m : ContactV1) (key : String) (ord : List String) =>
    if !ord.isEmpty then
      setVal m key (.str (String.intercalate ", " (ord.filter (fun s => !s.isEmpty))))
    else m
  let m6 := joinAll m5 "Full Name" ords.fullNameAll
  let m7 := joinAll m6 "FirstName" ords.firstNameAll
  let m8 := joinAll m7 "LastName" ords.lastNameAll
  let m9 := joinAll m8 "Name" ords.nameAll
  let m10 := joinAll m9 "Structured Name" ords.structuredNameAll
  { fields := phoneNormalizeStep np m10, confidenceScores := scores }

/-! ### Duplicate grouping (`merge_duplicates` of `process_contact.py`)

`id(contact)` is modelled by the contact's position in the batch (the
records of a batch are distinct live objects). -/

/-- The record at position `i` of the batch. -/
def nth (contacts : List ContactV1) (i : Nat) : ContactV1 :=
  contacts.getD i []

/-- Bucket insertion for `create_contact_index`. -/
def bucketAdd (idx : List (String × List Nat)) (k : String) (i : Nat) :
    List (String × List Nat) :=
  match idx with
  | [] => [(k, [i])]
  | (k0, l) :: rest =>
    if k0 = k then (k0, l ++ [i]) :: rest else (k0, l) :: bucketAdd rest k i

/-- `index.get(key, [])`. -/
def indexGet (idx : List (String × List Nat)) (k : String) : List Nat :=
  (List.lookup k idx).getD []

/-- `create_contact_index` of `process_contact.py`: bucket key = lower-cased
first three characters of the contact's name; empty names join no bucket. -/
def create_contact_index (contacts : List ContactV1) : List (String × List Nat) :=
  contacts.enum.foldl (fun idx ic =>
    let key := (pyLower (get_contact_name ic.2)).take 3
    if key.isEmpty then idx else bucketAdd idx key ic.1) []

/-- The single-character-deletion variant `key[:t] + key[t+1:]`. -/
def deleteAt (key : String) (t : Nat) : String :=
  String.mk (key.toList.take t ++ key.toList.drop (t + 1))

/-- The candidate list of the grouping loop for seed `i`: the seed's own
bucket followed by the buckets of all single-character-deletion variants of
its key; empty key gives no candidates (the `if first_chars:` guard). -/
def candidatesOf (contacts : List ContactV1) (idx : List (String × List Nat))
    (i : Nat) : List Nat :=
  let key := (pyLower (get_contact_name (nth contacts i))).take 3
  if key.isEmpty then []
  else indexGet idx key ++
    (List.range key.length).flatMap (fun t => indexGet idx (deleteAt key t))

/-- The inner candidate loop of `merge_duplicates`: absorb every unprocessed
candidate that `is_duplicate` (memoised) accepts, marking it processed at
once. Returns the grown group, the processed set and the updated cache. -/
def absorb (dup : Nat → Nat → DupCache → Bool × DupCache) (i : Nat) :
    List Nat → List Nat → List Nat → DupCache → List Nat × List Nat × DupCache
  | [], group, processed, cache => (group, processed, cache)
  | j :: rest, group, processed, cache =>
    if j ≠ i ∧ j ∉ processed then
      let rc := dup i j cache
      if rc.1 then absorb dup i rest (group ++ [j]) (j :: processed) rc.2
      else absorb dup i rest group processed rc.2
    else absorb dup i rest group processed cache

/-- State of the grouping pass: processed ids, finished multi-member
groups, and the comparison cache. -/
structure GroupState where
  processed : List Nat
  groups : List (List Nat)
  cache : DupCache
  deriving Repr

/-- One outer-loop step of `merge_duplicates` for seed `i`. -/
def groupStep (cand : Nat → List Nat) (dup : Nat → Nat → DupCache → Bool × DupCache)
    (st : GroupState) (i : Nat) : GroupState :=
  if i ∈ st.processed then st
  else
    let gpc := absorb dup i (cand i) [i] st.processed st.cache
    { processed := i :: gpc.2.1
      groups := if gpc.1.length > 1 then st.groups ++ [gpc.1] else st.groups
      cache := gpc.2.2 }

/-- The full grouping pass over seeds `0, …, n-1`. -/
def buildGroups (cand : Nat → List Nat) (dup : Nat → Nat → DupCache → Bool × DupCache)
    (n : Nat) : GroupState :=
  (List.range n).foldl (groupStep cand dup) ⟨[], [], []⟩

/-- The grouping pass of `merge_duplicates` instantiated with the real
index, candidate generation and memoised `is_duplicate`. -/
def mergeGroupsOf (sm : String → String → ℚ) (np : String → Option String)
    (contacts : List ContactV1) : GroupState :=
  let idx := create_contact_index contacts
  buildGroups (candidatesOf contacts idx)
    (fun i j cache => is_duplicate_cached sm np cache i j (nth contacts i) (nth contacts j))
    contacts.length

/-- Positions that ended up in no multi-member group: they pass through
unmerged, in batch order. -/
def passThroughOf (n : Nat) (groups : List (List Nat)) : List Nat :=
  (List.range n).filter (fun i => !groups.any (fun g => g.contains i))

/-- The clusters induced by one run: the multi-member merge groups followed
by one singleton cluster per pass-through contact. -/
def clustersOf (sm : String → String → ℚ) (np : String → Option String)
    (contacts : List ContactV1) : List (List Nat) :=
  let gs := mergeGroupsOf sm np contacts
  gs.groups ++ (passThroughOf contacts.length gs.groups).map (fun i => [i])

/-- `merge_duplicates` of `process_contact.py`: one merged record per
multi-member group (produced by `mergeFn`, e.g. `merge_contact_group`),
followed by the untouched pass-through records. -/
def merge_duplicates (mergeFn : List ContactV1 → ContactV1)
    (sm : String → String → ℚ) (np : String → Option String)
    (contacts : List ContactV1) : List ContactV1 :=
  if contacts.isEmpty then []
  else
    let gs := mergeGroupsOf sm np contacts
    gs.groups.map (fun g => mergeFn (g.map (nth contacts))) ++
      (passThroughOf contacts.length gs.groups).map (nth contacts)

/-! ### The rewritten pipeline (`src/core/contact.py`, `src/core/merger.py`) -/

/-- The `Contact` class of `src/core/contact.py` (fields used by the merge
engine; a fresh record carries `match_confidence = 0.0`). Addresses are
opaque payloads here: `merge_duplicate_groups` never inspects them. -/
structure ContactC where
  full_name : String := ""
  first_name : String := ""
  last_name : String := ""
  emails : List String := []
  phones : List String := []
  addresses : List String := []
  organization : String := ""
  match_confidence : ℚ := 0
  deriving DecidableEq, Repr

/-- `ContactMerger.merge_duplicate_groups` of `src/core/merger.py`: empty
groups are dropped, singleton groups pass their record through unchanged,
larger groups are merged by `merge_contact_group` (the parameter `f`, which
may return `None`). -/
def merge_duplicate_groups (f : List ContactC → Option ContactC)
    (groups : List (List ContactC)) : List ContactC :=
  if groups.isEmpty then []
  else
    groups.foldl (fun acc g =>
      match g with
      | [] => acc
      | [c] => acc ++ [c]
      | _ =>
        match f g with
        | some m => acc ++ [m]
        | none => acc) []

/-! ### Address normalization (`process_address.py`)

The Google address-validation HTTP call is the parameter
`net : Option ApiResult`; `none` covers network exceptions, non-2xx
responses and malformed JSON (all mapped to `None` by `validate_address`).
The `pycountry` region lookup only shapes the outgoing request and is not
modelled. -/

/-- `AddressValidationMode` of `process_address.py`. -/
inductive AddressValidationMode where
  | NONE
  | CLEAN_ONLY
  | FULL
  deriving DecidableEq, Repr

/-- The `vcard` sub-dict of an address dict. -/
structure VCard where
  po_box : String := ""
  extended : String := ""
  street : String := ""
  locality : String := ""
  region : String := ""
  postal_code : String := ""
  country : String := ""
  label : String := ""
  deriving DecidableEq, Repr

/-- An address dict of `process_address.py` (`vcard` sub-fields, metadata,
validation verdict and the optional preserved original text). -/
structure AddrDict where
  vcard : VCard
  originalAddress : Option String := none
  verdict : String := "UNPROCESSED"
  isBusiness : Bool := false
  addressComplete : Bool := false
  deriving DecidableEq, Repr

/-- The `components` dict assembled before `format_vcard_address`. -/
structure AddrComponents where
  po_box : String := ""
  extended : String := ""
  street : String := ""
  house_number : String := ""
  city : String := ""
  region : String := ""
  postal_code : String := ""
  country : String := ""
  isBusiness : Bool := false
  addressComplete : Bool := false
  verdict : String := "UNPROCESSED"
  originalAddress : Option String := none
  deriving DecidableEq, Repr

/-- `format_vcard_address` of `process_address.py`: derive the label as the
comma-join of the non-empty parts and assemble the address dict. -/
def format_vcard_address (c : AddrComponents) : AddrDict :=
  let label := String.intercalate ", "
    ([c.street, c.city, c.region, c.postal_code, c.country].filter (fun s => !s.isEmpty))
  { vcard := { po_box := c.po_box, extended := c.extended, street := c.street,
               locality := c.city, region := c.region, postal_code := c.postal_code,
               country := c.country, label := label }
    originalAddress := c.originalAddress
    verdict := c.verdict
    isBusiness := c.isBusiness
    addressComplete := c.addressComplete }

/-- `string_to_address_dict` of `process_address.py`. -/
def string_to_address_dict (s : String) : AddrDict :=
  { vcard := { street := s, label := s }
    originalAddress := some s
    verdict := "UNPROCESSED" }

/-- One `,\s*,` → `,` rewriting pass (left to right, non-overlapping, as
`re.sub` performs it). -/
def collapseCommaPairs : Nat → List Char → List Char
  | 0, s => s
  | _ + 1, [] => []
  | fuel + 1, c :: rest =>
    if c = ',' then
      let ws := rest.takeWhile Char.isWhitespace
      match rest.drop ws.length with
      | ',' :: rest2 => ',' :: collapseCommaPairs fuel rest2
      | _ => c :: collapseCommaPairs fuel rest
    else c :: collapseCommaPairs fuel rest

/-- `,\s*$` → removal of one trailing comma (with trailing whitespace). -/
def dropTrailingComma (s : List Char) : List Char :=
  match s.reverse.dropWhile Char.isWhitespace with
  | ',' :: revRest => revRest.reverse
  | _ => s

/-- `clean_address_string` of `process_address.py`: collapse whitespace,
newline→comma (vacuous after the collapse, kept for fidelity), duplicate
and trailing comma removal, and deletion of characters other than word
characters, whitespace and commas (ASCII `\w`). -/
def clean_address_string (address : String) : String :=
  let s1 := (String.intercalate " " (pySplitWs address))
  let s2 := pyReplace s1 "\n" ", "
  let s3 := String.mk (collapseCommaPairs s2.length s2.toList)
  let s4 := String.mk (dropTrailingComma s3.toList)
  String.mk (s4.toList.filter (fun c => isWordChar c || c.isWhitespace || c = ','))

/-- One typed component of the validation response. -/
structure ApiComponent where
  componentType : String
  text : String
  deriving DecidableEq, Repr

/-- The processed validation response `validate_address` builds from a
successful API call (the fields consumed by `normalize_address`). -/
structure ApiResult where
  addressComplete : Bool := false
  addressComponents : List ApiComponent := []
  isBusiness : Bool := false
  verdict : String := "UNKNOWN"
  deriving DecidableEq, Repr

/-- `validate_address` of `process_address.py`: `None` on missing address
text or missing API key; otherwise the outcome of the external call
(`none` = network exception, non-2xx response or malformed JSON — every
failure is caught and mapped to `None`, never raised). -/
def validate_address (net : Option ApiResult) (apiKey : Option String)
    (addr : String) : Option ApiResult :=
  if addr.isEmpty || apiKey.isNone then none else net

/-- Input of `normalize_address`: Python `None`/falsy, a raw string, or an
address dict (the list case maps the function over the elements and is not
modelled). -/
inductive AddrInput where
  | blank
  | str (s : String)
  | dict (d : AddrDict)
  deriving DecidableEq, Repr

/-- Component extraction of `normalize_address`: walk the typed components,
keeping the last non-empty text per recognised type. -/
def applyComponents (base : AddrComponents) (comps : List ApiComponent) : AddrComponents :=
  comps.foldl (fun acc comp =>
    let nameText := pyTrim comp.text
    if nameText.isEmpty then acc
    else if comp.componentType = "route" then { acc with street := nameText }
    else if comp.componentType = "street_number" then { acc with house_number := nameText }
    else if comp.componentType = "locality" then { acc with city := nameText }
    else if comp.componentType = "postal_code" then { acc with postal_code := nameText }
    else if comp.componentType = "country" then { acc with country := nameText }
    else acc) base

/-- `normalize_address` of `process_address.py` for a single address.
On any validation failure (no API key, external failure, or a response
without usable components) the pre-enrichment address dict is returned as
is — in particular its verdict is left untouched. -/
def normalize_address (net : Option ApiResult) (apiKey : Option String)
    (mode : AddressValidationMode) (address : AddrInput) : AddrDict :=
  match address with
  | .blank => format_vcard_address {}
  | .str s =>
    if s.isEmpty then format_vcard_address {}
    else
      let cleaned :=
        if mode = .CLEAN_ONLY || mode = .FULL then clean_address_string s else s
      normalizeDict net apiKey mode (string_to_address_dict cleaned) s
  | .dict d =>
    normalizeDict net apiKey mode d (d.originalAddress.getD d.vcard.street)
where
  /-- The shared tail of `normalize_address` once the input is in dict
  form; `originalRaw` is the `original_address` local of the source. -/
  normalizeDict (net : Option ApiResult) (apiKey : Option String)
      (mode : AddressValidationMode) (d : AddrDict) (originalRaw : String) : AddrDict :=
    match mode with
    | .NONE => d
    | .CLEAN_ONLY => d
    | .FULL =>
      let raw := String.intercalate ", "
        ([d.vcard.street, d.vcard.locality, d.vcard.postal_code, d.vcard.country].filter
          (fun s => !s.isEmpty))
      match validate_address net apiKey raw with
      | none => d
      | some r =>
        if r.addressComponents.isEmpty then d
        else
          let comps0 : AddrComponents :=
            { isBusiness := r.isBusiness, addressComplete := r.addressComplete,
              verdict := r.verdict }
          let comps := applyComponents comps0 r.addressComponents
          let comps :=
            if !comps.street.isEmpty && !comps.house_number.isEmpty then
              { comps with street := comps.street ++ " " ++ comps.house_number }
            else comps
          let result := format_vcard_address comps
          { result with verdict := r.verdict, originalAddress := some originalRaw }

/-! ### Concrete models of the external collaborators

Used to instantiate theorems at concrete inputs.  Each model agrees with
the real library on every input the instantiated computation consults it
at (stated next to each definition). -/

/-- Model of `SequenceMatcher.ratio`: `1` on identical strings (as the real
ratio is), `0` elsewhere.  The concrete computations below consult it only
on identical pairs and on pairs whose real ratio is at most `0.8`
(e.g. `ratio("anna", "maria") = 4/9`, `ratio("schmidt", "mueller") = 1/7`),
so every threshold comparison agrees with `difflib`. -/
def smModel : String → String → ℚ := fun a b => if a = b then 1 else 0

/-- Model of `fuzz.ratio(a, b) > 80`: false everywhere.  The concrete
computations below consult the fuzzy scorer only on distinct lower-cased
name tokens whose real `fuzzywuzzy` ratio is far below 80 (e.g.
`ratio("james", "jim") = 50`, `ratio("anna", "olga") = 25`). -/
def fzNever : String → String → Bool := fun _ _ => false

/-- Model of `phonenumbers` for batches that carry no parseable phones. -/
def npNone : String → Option String := fun _ => none

/-- Model of `phonenumbers` parsing for the two spellings
`+4930901820` and `+49 30 901820` of one German number (both parse and
format to the E.164 form `+4930901820`); everything else is unparseable. -/
def npBerlin : String → Option String := fun s =>
  if s = "+4930901820" || s = "+49 30 901820" then some "+4930901820" else none

/-- Two contacts with a name-token match fraction of exactly `2/3`
(`anna`, `maria` match; `schmidt`/`mueller` do not) and no phones. -/
def cAnnaMariaS : ContactV1 := [("Full Name", .str "Anna Maria Schmidt")]

/-- See `cAnnaMariaS`. -/
def cAnnaMariaM : ContactV1 := [("Full Name", .str "Anna Maria Mueller")]

/-- A duplicated record: same full name and same email address. -/
def cJohn : ContactV1 := [("Full Name", .str "John Smith"), ("Email", .str "john@email.com")]

/-- Consistent set orders for the cluster `[cJohn, cJohn]`. -/
def ordsJohn : SetOrders := ⟨["John"], ["Smith"], ["John Smith"], [], [], [], []⟩

/-- A contact contributing first name `Anna`. -/
def cAnna : ContactV1 := [("FirstName", .str "Anna")]

/-- A contact contributing first name `Olga`. -/
def cOlga : ContactV1 := [("FirstName", .str "Olga")]

/-- One consistent iteration order of the sets of `[cAnna, cOlga]`. -/
def ordsAnnaOlga : SetOrders := ⟨["Anna", "Olga"], [], [], ["Anna", "Olga"], [], [], []⟩

/-- The other consistent iteration order of the sets of `[cAnna, cOlga]`. -/
def ordsOlgaAnna : SetOrders := ⟨["Olga", "Anna"], [], [], ["Olga", "Anna"], [], [], []⟩

/-- A single named contact, used as a singleton cluster. -/
def cAnnaSchmidt : ContactV1 := [("Full Name", .str "Anna Schmidt")]

/-- Consistent set orders for the singleton cluster `[cAnnaSchmidt]`. -/
def ordsAnnaSchmidt : SetOrders := ⟨["Anna"], ["Schmidt"], ["Anna Schmidt"], [], [], [], []⟩

/-- Two records for one person carrying the two spellings of one phone
number (see `npBerlin`). -/
def cPhone1 : ContactV1 := [("Full Name", .str "Ute Kranz"), ("Telephone", .str "+4930901820")]

/-- See `cPhone1`. -/
def cPhone2 : ContactV1 := [("Full Name", .str "Ute Kranz"), ("Telephone", .str "0049 30 901820")]

/-- Consistent set orders for the cluster `[cPhone1, cPhone2]`. -/
def ordsPhone : SetOrders := ⟨["Ute"], ["Kranz"], ["Ute Kranz"], [], [], [], []⟩

/-- A contact whose only datum is an email with an empty local part. -/
def cAtOnly : ContactV1 := [("Email", .str "@example.com")]

/-- A contact whose only datum is an organization name. -/
def cOrgOnly : ContactV1 := [("Organization", .str "Acme Labs")]

/-- A pre-enrichment address dict (street text only, verdict UNPROCESSED). -/
def dBerg : AddrDict := string_to_address_dict "Bergstrasse 51, Berlin"

/-- The lower-cased name tokens of `"Dr. James Wilson"` and
`"Jim Wilson MD"`, over which the fuzzy scorer is consulted. -/
def c9Toks : List String := ["dr.", "james", "wilson", "jim", "md"]

/-- Invariant of the grouping pass: the finished groups hold no position
twice, every grouped position is marked processed, and every processed
position is a valid batch index. -/
def GInv (n : Nat) (st : GroupState) : Prop :=
  st.groups.flatten.Nodup ∧
  (∀ x ∈ st.groups.flatten, x ∈ st.processed) ∧
  (∀ x ∈ st.processed, x < n)

/-! ## Theorems -/

/-! ### Association-list and deduplication lemmas -/

theorem getVal_setVal_self (m : ContactV1) (k : String) (v : PyVal) :
    getVal (setVal m k v) k = some v := by
  induction m with
  | nil => simp [setVal, getVal, List.lookup]
  | cons hd tl ih =>
    obtain ⟨k0, v0⟩ := hd
    by_cases h : k0 = k
    · subst h; simp [setVal, getVal, List.lookup]
    · have hb : (k == k0) = false := by simp [Ne.symm h]
      simpa [setVal, getVal, List.lookup, h, hb] using ih

theorem getVal_setVal_ne (m : ContactV1) (k k2 : String) (v : PyVal) (h : k ≠ k2) :
    getVal (setVal m k v) k2 = getVal m k2 := by
  induction m with
  | nil =>
    have hb : (k2 == k) = false := by simp [Ne.symm h]
    simp [setVal, getVal, List.lookup, hb]
  | cons hd tl ih =>
    obtain ⟨k0, v0⟩ := hd
    by_cases h0 : k0 = k
    · subst h0
      have hb : (k2 == k0) = false := by simp [Ne.symm h]
      simp [setVal, getVal, List.lookup, hb]
    · by_cases h2 : k0 = k2
      · subst h2
        simp [setVal, getVal, List.lookup, h0]
      · have hb : (k2 == k0) = false := by simp [Ne.symm h2]
        simpa [setVal, getVal, List.lookup, h0, hb] using ih

theorem dedupList_go_spec (l : List String) : ∀ seen : List String,
    (dedupList.go seen l).Nodup ∧ ∀ x ∈ dedupList.go seen l, x ∉ seen := by
  induction l with
  | nil => intro seen; simp [dedupList.go]
  | cons y rest ih =>
    intro seen
    by_cases hy : y ∈ seen
    · simpa [dedupList.go, hy] using ih seen
    · have h2 := ih (y :: seen)
      have hgo : dedupList.go seen (y :: rest) = y :: dedupList.go (y :: seen) rest := by
        simp [dedupList.go, hy]
      rw [hgo]
      refine ⟨List.Nodup.cons (fun hmem => ?_) h2.1, ?_⟩
      · exact (h2.2 y hmem) (List.mem_cons_self y seen)
      · intro x hx
        rcases List.mem_cons.mp hx with h | h
        · subst h; exact hy
        · intro hxs
          exact (h2.2 x h) (List.mem_cons_of_mem y hxs)

theorem dedupList_nodup (l : List String) : (dedupList l).Nodup :=
  (dedupList_go_spec l []).1

theorem dedupKeep_spec (l : List String) : ∀ seen : List String,
    (dedupKeep seen l).Nodup ∧ ∀ x ∈ dedupKeep seen l, x ∉ seen := by
  induction l with
  | nil => intro seen; simp [dedupKeep]
  | cons y rest ih =>
    intro seen
    have hgo : dedupKeep seen (y :: rest) =
        if (!y.isEmpty && !seen.contains y) = true then y :: dedupKeep (y :: seen) rest
        else dedupKeep seen rest := rfl
    by_cases hy : y ∈ seen
    · rw [hgo, if_neg (by simp [hy])]
      exact ih seen
    · by_cases hz : y.isEmpty = true
      · rw [hgo, if_neg (by simp [hz])]
        exact ih seen
      · have hc : (!y.isEmpty && !seen.contains y) = true := by simp [hy, hz]
        have h2 := ih (y :: seen)
        rw [hgo, if_pos hc]
        refine ⟨List.Nodup.cons (fun hmem => ?_) h2.1, ?_⟩
        · exact (h2.2 y hmem) (List.mem_cons_self y seen)
        · intro x hx
          rcases List.mem_cons.mp hx with h | h
          · subst h; exact hy
          · intro hxs
            exact (h2.2 x h) (List.mem_cons_of_mem y hxs)

/-! ### Claim C3 — merged email/phone deduplication -/

/-- Claim C3, counterexample: merging the cluster of two identical records
(same full name, same email) produces a contact whose `Email` value holds
the same address twice — two canonically-equal entries — although the given
set orders are consistent.  The dedup invariant thus fails for emails. -/
theorem claim3_counterexample :
    ordersConsistent ordsJohn [cJohn, cJohn] = true ∧
    getVal (merge_contact_group fzNever smModel npNone ordsJohn [cJohn, cJohn]).fields
        "Email" = some (.list ["john@email.com", "john@email.com"]) := by
  exact ⟨by decide, by decide⟩

theorem phoneNormalizeStep_nodup (np : String → Option String) (m : ContactV1)
    (vs : List String)
    (h : getVal (phoneNormalizeStep np m) "Telephone" = some (.list vs)) :
    vs.Nodup := by
  cases hv : getVal m "Telephone" with
  | none =>
    have he : phoneNormalizeStep np m = m := by
      unfold phoneNormalizeStep; rw [hv]
    rw [he, hv] at h
    cases h
  | some v =>
    cases v with
    | str s =>
      have he : phoneNormalizeStep np m = setVal m "Telephone"
          (.list (dedupList (normalize_phone_list np [.str s]))) := by
        unfold phoneNormalizeStep; simp only [hv]
      rw [he, getVal_setVal_self] at h
      simp only [Option.some.injEq, PyVal.list.injEq] at h
      rw [← h]
      exact dedupList_nodup _
    | list l =>
      have he : phoneNormalizeStep np m = setVal m "Telephone"
          (.list (dedupList (normalize_phone_list np (l.map PyVal.str)))) := by
        unfold phoneNormalizeStep; simp only [hv]
      rw [he, getVal_setVal_self] at h
      simp only [Option.some.injEq, PyVal.list.injEq] at h
      rw [← h]
      exact dedupList_nodup _

/-- Claim C3, amended: in every contact produced by `merge_contact_group`
the `phones` list (`Telephone`) indeed contains no two canonically-equal
entries (the normalize-then-dedup loop keeps each canonical form once, in
first-seen order), but the `emails` are merely concatenated: the produced
`Email` value can hold canonically-equal duplicates (see the
counterexample). -/
theorem claim3_amended (fzGt : String → String → Bool) (sm : String → String → ℚ)
    (np : String → Option String) (ords : SetOrders) (dups : List ContactV1)
    (vs : List String)
    (h : getVal (merge_contact_group fzGt sm np ords dups).fields "Telephone" =
      some (.list vs)) : vs.Nodup :=
  phoneNormalizeStep_nodup np _ vs h

/-- Witness for `claim3_amended` at the two-spelling phone cluster. -/
theorem claim3_amended_witness : (["+4930901820"] : List String).Nodup :=
  claim3_amended fzNever smModel npBerlin ordsPhone [cPhone1, cPhone2]
    ["+4930901820"] (by decide)

/-! ### Claim C4 — merging a singleton cluster -/

/-- Claim C4, counterexample: `merge_contact_group` applied directly to a
singleton cluster does not return confidence `0`: the single collected
score is the contact's similarity against itself (`1` for a named contact),
so the stored geometric-mean confidence is `1`, not `0`. -/
theorem claim4_counterexample :
    ordersConsistent ordsAnnaSchmidt [cAnnaSchmidt] = true ∧
    matchConfidence (merge_contact_group fzNever smModel npNone ordsAnnaSchmidt
        [cAnnaSchmidt]).confidenceScores = 1 ∧ (1 : ℝ) ≠ 0 := by
  refine ⟨by decide, ?_, by norm_num⟩
  have hc : calculate_match_confidence smModel cAnnaSchmidt cAnnaSchmidt = 1 := by
    unfold calculate_match_confidence
    have h1 : getTruthy cAnnaSchmidt "Email" = false := by decide
    have h2 : getStrD cAnnaSchmidt "Full Name" "" = "Anna Schmidt" := by decide
    have h3 : getStrD cAnnaSchmidt "FirstName" "" = "" := by decide
    have h4 : getStrD cAnnaSchmidt "Organization" "" = "" := by decide
    have h5 : getStrD cAnnaSchmidt "ADR_Street" "" = "" := by decide
    have h6 : getStrD cAnnaSchmidt "ADR_Locality" "" = "" := by decide
    have h7 : getStrD cAnnaSchmidt "ADR_PostalCode" "" = "" := by decide
    have h8 : getStrD cAnnaSchmidt "ADR_Country" "" = "" := by decide
    have h9 : string_similarity smModel "Anna Schmidt" "Anna Schmidt" = 1 := by decide
    have ha : ("Anna Schmidt" : String).isEmpty = false := by decide
    have hb : ("" : String).isEmpty = true := by decide
    rw [h1, h2]
    norm_num [h3, h4, h5, h6, h7, h8, h9, ha, hb]
  have hs : (merge_contact_group fzNever smModel npNone ordsAnnaSchmidt
      [cAnnaSchmidt]).confidenceScores =
      [calculate_match_confidence smModel cAnnaSchmidt cAnnaSchmidt] := rfl
  rw [matchConfidence, hs, hc]
  norm_num

/-- Claim C4, amended: singleton clusters never reach the group merge: the
group-level driver (`ContactMerger.merge_duplicate_groups`) returns the
single record itself, unchanged — hence equivalent to the input — and a
freshly constructed record carries `match_confidence = 0`, so the claim
holds for raw input records along that path.  `merge_contact_group` applied
directly to a singleton instead stores the record's self-similarity as its
confidence (see the counterexample). -/
theorem claim4_amended (f : List ContactC → Option ContactC) (c : ContactC) :
    merge_duplicate_groups f [[c]] = [c] ∧
    ∀ fn fi ln em ph ad org,
      ({ full_name := fn, first_name := fi, last_name := ln, emails := em,
         phones := ph, addresses := ad, organization := org } : ContactC).match_confidence
        = 0 := by
  exact ⟨by simp [merge_duplicate_groups], fun _ _ _ _ _ _ _ => rfl⟩

/-! ### Claim C5 — address enrichment failure -/

/-- Claim C5, counterexample: with the API key missing (an enrichment
failure the claim covers), `normalize_address` returns the pre-enrichment
address completely unchanged — its verdict stays `UNPROCESSED` and is not
set to `FAILED` as the claim states. -/
theorem claim5_counterexample :
    normalize_address none none .FULL (.dict dBerg) = dBerg ∧
    dBerg.verdict = "UNPROCESSED" ∧ ("UNPROCESSED" : String) ≠ "FAILED" := by
  exact ⟨by decide, rfl, by decide⟩

/-- Claim C5, amended: on every enrichment failure (missing API key;
network error, non-2xx response or malformed response, all of which reach
the caller as an absent result; or a response without usable address
components) `normalize_address` returns the pre-enrichment address dict
unchanged — verdict, original text and all sub-fields untouched — and,
being a total function of the failure outcome, never propagates an
exception. -/
theorem claim5_amended (net : Option ApiResult) (apiKey : Option String)
    (d : AddrDict)
    (h : apiKey = none ∨ net = none ∨ ∀ r, net = some r → r.addressComponents = []) :
    normalize_address net apiKey .FULL (.dict d) = d := by
  show normalize_address.normalizeDict net apiKey .FULL d _ = d
  unfold normalize_address.normalizeDict validate_address
  rcases h with h | h | h
  · subst h; simp
  · subst h; simp
  · cases net with
    | none => simp
    | some r =>
      have hr : r.addressComponents = [] := h r rfl
      by_cases hc : (String.intercalate ", " ([d.vcard.street, d.vcard.locality,
          d.vcard.postal_code, d.vcard.country].filter (fun s => !s.isEmpty))).isEmpty = true
          ∨ apiKey = none
      · simp [hc, hr]
      · simp [hc, hr]

/-- Witness for `claim5_amended`: the missing-API-key failure. -/
theorem claim5_amended_witness : normalize_address none none .FULL (.dict dBerg) = dBerg :=
  claim5_amended none none dBerg (Or.inl rfl)

/-! ### Claim C6 — determinism of the merge engine -/

theorem sameSetB_of_small (l c : List String) (h : sameSetB l c = true)
    (hlen : c.length ≤ 1) : l = c := by
  unfold sameSetB at h
  simp only [Bool.and_eq_true, decide_eq_true_eq, List.all_eq_true, and_assoc] at h
  obtain ⟨hnd, hsub, hsup⟩ := h
  replace hsub := fun x hx => List.mem_of_elem_eq_true (hsub x hx)
  replace hsup := fun x hx => List.mem_of_elem_eq_true (hsup x hx)
  match c, hlen with
  | [], _ =>
    exact List.eq_nil_iff_forall_not_mem.mpr (fun x hx => by simpa using hsub x hx)
  | [a], _ =>
    have ha : a ∈ l := hsup a (List.mem_singleton_self a)
    match l, hnd, hsub, ha with
    | x :: t, hnd, hsub, ha =>
      have hx : x = a := by simpa using hsub x (List.mem_cons_self x t)
      subst hx
      cases t with
      | nil => rfl
      | cons y t2 =>
        have hy : y = x := by
          simpa using hsub y (List.mem_cons_of_mem x (List.mem_cons_self y t2))
        subst hy
        exact absurd (List.mem_cons_self y t2) (List.nodup_cons.mp hnd).1

/-- Claim C6, counterexample: the merged record is not independent of the
Python set iteration order.  The cluster `[cAnna, cOlga]` collects the
first-name set `{"Anna", "Olga"}`; its two enumeration orders are both
consistent with the code's set contents, yet they produce different merged
full names (`"Anna Olga"` vs `"Olga Anna"`), so two runs of the merge can
differ depending on hash/set iteration order. -/
theorem claim6_counterexample :
    ordersConsistent ordsAnnaOlga [cAnna, cOlga] = true ∧
    ordersConsistent ordsOlgaAnna [cAnna, cOlga] = true ∧
    getVal (merge_contact_group fzNever smModel npNone ordsAnnaOlga
        [cAnna, cOlga]).fields "Full Name" = some (.str "Anna Olga") ∧
    getVal (merge_contact_group fzNever smModel npNone ordsOlgaAnna
        [cAnna, cOlga]).fields "Full Name" = some (.str "Olga Anna") ∧
    getVal (merge_contact_group fzNever smModel npNone ordsAnnaOlga
        [cAnna, cOlga]).fields "Full Name" ≠
      getVal (merge_contact_group fzNever smModel npNone ordsOlgaAnna
        [cAnna, cOlga]).fields "Full Name" := by
  exact ⟨by decide, by decide, by decide, by decide, by decide⟩

/-- Claim C6, amended: the merge is deterministic only up to set iteration
order.  When every name set the code builds has at most one element, all
consistent iteration orders coincide and the merged record is unique; with
larger sets different orders can change the merged names (see the
counterexample). -/
theorem claim6_amended (fzGt : String → String → Bool) (sm : String → String → ℚ)
    (np : String → Option String) (o o2 : SetOrders) (dups : List ContactV1)
    (h1 : ordersConsistent o dups = true) (h2 : ordersConsistent o2 dups = true)
    (hsmall : (collectedFirstNames dups).length ≤ 1 ∧
      (collectedLastNames dups).length ≤ 1 ∧
      (collectedAllNames dups "Full Name").length ≤ 1 ∧
      (collectedAllNames dups "FirstName").length ≤ 1 ∧
      (collectedAllNames dups "LastName").length ≤ 1 ∧
      (collectedAllNames dups "Name").length ≤ 1 ∧
      (collectedAllNames dups "Structured Name").length ≤ 1) :
    merge_contact_group fzGt sm np o dups = merge_contact_group fzGt sm np o2 dups := by
  obtain ⟨s1, s2, s3, s4, s5, s6, s7⟩ := hsmall
  have ho : o = o2 := by
    rcases o with ⟨f1, l1, fa1, fia1, la1, na1, sa1⟩
    rcases o2 with ⟨f2, l2, fa2, fia2, la2, na2, sa2⟩
    simp only [ordersConsistent, Bool.and_eq_true, and_assoc] at h1 h2
    obtain ⟨b1, b2, b3, b4, b5, b6, b7⟩ := h1
    obtain ⟨d1, d2, d3, d4, d5, d6, d7⟩ := h2
    rw [sameSetB_of_small _ _ b1 s1, sameSetB_of_small _ _ b2 s2,
      sameSetB_of_small _ _ b3 s3, sameSetB_of_small _ _ b4 s4,
      sameSetB_of_small _ _ b5 s5, sameSetB_of_small _ _ b6 s6,
      sameSetB_of_small _ _ b7 s7,
      sameSetB_of_small _ _ d1 s1, sameSetB_of_small _ _ d2 s2,
      sameSetB_of_small _ _ d3 s3, sameSetB_of_small _ _ d4 s4,
      sameSetB_of_small _ _ d5 s5, sameSetB_of_small _ _ d6 s6,
      sameSetB_of_small _ _ d7 s7]
  rw [ho]

/-- Witness for `claim6_amended` at a singleton cluster whose name sets all
have at most one element. -/
theorem claim6_amended_witness :
    merge_contact_group fzNever smModel npNone ordsAnnaSchmidt [cAnnaSchmidt] =
      merge_contact_group fzNever smModel npNone ordsAnnaSchmidt [cAnnaSchmidt] :=
  claim6_amended fzNever smModel npNone ordsAnnaSchmidt ordsAnnaSchmidt [cAnnaSchmidt]
    (by decide) (by decide) (by decide)

/-! ### Claim C7 — non-empty full name after processing -/

/-- Claim C7, counterexample: a contact whose only datum is the email
`"@example.com"` (empty local part) leaves `validate_contact` with an empty
`Full Name` — the synthesized pseudo-name is the empty string, so the
non-emptiness invariant fails. -/
theorem claim7_counterexample :
    getVal (validate_contact cAtOnly) "Full Name" = some (.str "") ∧
    getTruthy (validate_contact cAtOnly) "Full Name" = false := by
  exact ⟨by decide, by decide⟩

/-- Claim C7, amended: `validate_contact` leaves a truthy `Full Name`
unchanged and fills a falsy one with `generate_pseudo_name`, whose priority
order is email local part (dot-separated, title-cased), then first phone,
then organization, then the literal `"Unknown"`; the resulting `Full Name`
is non-empty whenever the synthesized pseudo-name is non-empty (it is the
empty string exactly when the chosen source text is degenerate, e.g. an
empty email local part). -/
theorem claim7_amended (c : ContactV1) :
    (getTruthy c "Full Name" = false →
      getVal (validate_contact c) "Full Name" = some (.str (generate_pseudo_name c))) ∧
    (getTruthy c "Full Name" = true →
      getVal (validate_contact c) "Full Name" = getVal c "Full Name") ∧
    (generate_pseudo_name c ≠ "" → getTruthy (validate_contact c) "Full Name" = true) ∧
    (getTruthy c "Email" = false → getTruthy c "Telephone" = false →
      getTruthy c "Organization" = false → generate_pseudo_name c = "Unknown") := by
  have hbase : ∀ c1 : ContactV1,
      getVal (if getTruthy c1 "Name" then c1
        else setVal c1 "Name" (match getVal c1 "Full Name" with
          | some v => v
          | none => .str "Unknown")) "Full Name" = getVal c1 "Full Name" := by
    intro c1
    by_cases hn : getTruthy c1 "Name"
    · simp [hn]
    · simp only [hn, Bool.false_eq_true, if_false]
      exact getVal_setVal_ne c1 "Name" "Full Name" _ (by decide)
  have hfull : getVal (validate_contact c) "Full Name" =
      getVal (if getTruthy c "Full Name" then c
        else setVal c "Full Name" (.str (generate_pseudo_name c))) "Full Name" := by
    unfold validate_contact
    exact hbase _
  have hcase1 : getTruthy c "Full Name" = false →
      getVal (validate_contact c) "Full Name" = some (.str (generate_pseudo_name c)) := by
    intro h
    rw [hfull, if_neg (by simp [h])]
    exact getVal_setVal_self c "Full Name" _
  have hcase2 : getTruthy c "Full Name" = true →
      getVal (validate_contact c) "Full Name" = getVal c "Full Name" := by
    intro h
    rw [hfull, if_pos h]
  refine ⟨hcase1, hcase2, ?_, ?_⟩
  · intro h
    by_cases hf : getTruthy c "Full Name" = true
    · unfold getTruthy
      rw [hcase2 hf]
      unfold getTruthy at hf
      exact hf
    · have hf2 : getTruthy c "Full Name" = false := by
        cases hx : getTruthy c "Full Name"
        · rfl
        · exact absurd hx hf
      unfold getTruthy
      rw [hcase1 hf2]
      have hne : (generate_pseudo_name c).isEmpty = false := by
        cases hx : (generate_pseudo_name c).isEmpty
        · rfl
        · exact absurd ((String.isEmpty_iff _).mp hx) h
      simp [truthy, hne]
  · intro h1 h2 h3
    unfold generate_pseudo_name
    simp [h1, h2, h3]

/-- Witness for `claim7_amended` at an organization-only contact. -/
theorem claim7_amended_witness :
    getVal (validate_contact cOrgOnly) "Full Name" =
        some (.str (generate_pseudo_name cOrgOnly)) ∧
      getTruthy (validate_contact cOrgOnly) "Full Name" = true :=
  ⟨(claim7_amended cOrgOnly).1 (by decide),
    (claim7_amended cOrgOnly).2.2.1 (by decide)⟩

/-! ### Claim C1 — the duplicate decision rule -/

/-- Claim C1, counterexample: the thresholds of `is_duplicate` are the
decimal literals `0.33` and `0.67`, not `1/3` and `2/3`.  The pair
`("Anna Maria Schmidt", "Anna Maria Mueller")` has a name-match fraction of
exactly `2/3` (tokens `anna` and `maria` match, `schmidt`/`mueller` do not)
and no phones, so the claimed rule (with threshold `2/3`) calls it a match
while the code (threshold `0.67 > 2/3`) does not. -/
theorem claim1_counterexample :
    is_duplicate smModel npNone cAnnaMariaS cAnnaMariaM = false ∧
    is_duplicate_spec smModel npNone cAnnaMariaS cAnnaMariaM = true ∧
    nameMatchFrac smModel cAnnaMariaS cAnnaMariaM = Rat.divInt 2 3 ∧
    havePhoneMatch npNone cAnnaMariaS cAnnaMariaM = false := by
  exact ⟨by decide, by decide, by decide, by decide⟩

/-- Claim C1, amended: for every pair of non-empty contact records the
decision is a match if and only if (the normalized phone sets intersect and
the name-part match fraction is at least `0.33`) or the fraction is at
least `0.67` — the decimal literals of the source, not `1/3` and `2/3`; in
particular a pair whose fraction is exactly `2/3` and whose phones do not
intersect is NOT a match, since `2/3 < 0.67`. -/
theorem claim1_amended (sm : String → String → ℚ) (np : String → Option String)
    (c1 c2 : ContactV1) (h1 : c1 ≠ []) (h2 : c2 ≠ []) :
    (is_duplicate sm np c1 c2 = true ↔
      (havePhoneMatch np c1 c2 = true ∧ nameMatchFrac sm c1 c2 ≥ (33 : ℚ)/100) ∨
        nameMatchFrac sm c1 c2 ≥ (67 : ℚ)/100) ∧
    (nameMatchFrac sm c1 c2 = (2 : ℚ)/3 → havePhoneMatch np c1 c2 = false →
      is_duplicate sm np c1 c2 = false) := by
  have he1 : c1.isEmpty = false := by simpa [List.isEmpty_iff] using h1
  have he2 : c2.isEmpty = false := by simpa [List.isEmpty_iff] using h2
  have hdiv33 : Rat.divInt 33 100 = (33 : ℚ)/100 := by
    rw [Rat.divInt_eq_div]; norm_num
  have hdiv67 : Rat.divInt 67 100 = (67 : ℚ)/100 := by
    rw [Rat.divInt_eq_div]; norm_num
  constructor
  · unfold is_duplicate
    rw [he1, he2, hdiv33, hdiv67]
    simp only [Bool.or_false, Bool.false_eq_true, if_false, Bool.or_eq_true,
      Bool.and_eq_true, decide_eq_true_eq]
  · intro hf hp
    unfold is_duplicate
    rw [he1, he2, hp, hf, hdiv67]
    simp only [Bool.or_false, Bool.false_eq_true, if_false, Bool.false_and,
      Bool.false_or]
    rw [decide_eq_false_iff_not]
    norm_num

/-- Witness for `claim1_amended` at the exact-`2/3` pair. -/
theorem claim1_amended_witness :
    (is_duplicate smModel npNone cAnnaMariaS cAnnaMariaM = true ↔
      (havePhoneMatch npNone cAnnaMariaS cAnnaMariaM = true ∧
        nameMatchFrac smModel cAnnaMariaS cAnnaMariaM ≥ (33 : ℚ)/100) ∨
        nameMatchFrac smModel cAnnaMariaS cAnnaMariaM ≥ (67 : ℚ)/100) ∧
    (nameMatchFrac smModel cAnnaMariaS cAnnaMariaM = (2 : ℚ)/3 →
      havePhoneMatch npNone cAnnaMariaS cAnnaMariaM = false →
      is_duplicate smModel npNone cAnnaMariaS cAnnaMariaM = false) :=
  claim1_amended smModel npNone cAnnaMariaS cAnnaMariaM (by decide) (by decide)

/-! ### Claim C10 — symmetry of the duplicate decision -/

theorem countP_eq_sum_map (p : String → Bool) (l : List String) :
    l.countP p = (l.map (fun b => if p b then 1 else 0)).sum := by
  induction l with
  | nil => simp
  | cons b t ih => simp [List.countP_cons, ih]; omega

theorem sum_countP_swap (P : String → String → Bool) (l1 l2 : List String) :
    (l1.map (fun a => l2.countP (P a))).sum =
      (l2.map (fun b => l1.countP (fun a => P a b))).sum := by
  induction l1 with
  | nil => simp
  | cons a t ih =>
    have hsplit : (l2.map (fun b => t.countP (fun a2 => P a2 b) +
        if P a b then 1 else 0)).sum
        = (l2.map (fun b => t.countP (fun a2 => P a2 b))).sum +
          (l2.map (fun b => if P a b then 1 else 0)).sum := by
      induction l2 with
      | nil => simp
      | cons c t2 ih2 => simp [ih2]; omega
    simp only [List.map_cons, List.sum_cons, List.countP_cons]
    rw [ih, hsplit, ← countP_eq_sum_map (P a) l2]
    omega

theorem string_similarity_symm (sm : String → String → ℚ)
    (hsym : ∀ a b, sm a b = sm b a) (s1 s2 : String) :
    string_similarity sm s1 s2 = string_similarity sm s2 s1 := by
  unfold string_similarity
  by_cases h : (s1.isEmpty || s2.isEmpty) = true
  · rw [if_pos h, if_pos (by rw [Bool.or_comm]; exact h)]
  · rw [if_neg h, if_neg (by rw [Bool.or_comm]; exact h), hsym]

theorem matching_parts_symm (sm : String → String → ℚ)
    (hsym : ∀ a b, sm a b = sm b a) (l1 l2 : List String) :
    matching_parts sm l1 l2 = matching_parts sm l2 l1 := by
  unfold matching_parts
  rw [sum_countP_swap]
  congr 1
  apply List.map_congr_left
  intro b _
  apply List.countP_congr
  intro a _
  rw [string_similarity_symm sm hsym a b]
  by_cases h : a = b
  · simp [h]
  · simp [beq_iff_eq, h, Ne.symm h]

theorem any_contains_comm (l1 l2 : List String) :
    l1.any (fun p => l2.contains p) = l2.any (fun p => l1.contains p) := by
  rw [Bool.eq_iff_iff]
  simp only [List.elem_eq_mem, List.any_eq_true, decide_eq_true_eq]
  exact ⟨fun ⟨x, h1, h2⟩ => ⟨x, h2, h1⟩, fun ⟨x, h1, h2⟩ => ⟨x, h2, h1⟩⟩

theorem havePhoneMatch_symm (np : String → Option String) (c1 c2 : ContactV1) :
    havePhoneMatch np c1 c2 = havePhoneMatch np c2 c1 := by
  unfold havePhoneMatch
  dsimp only
  rw [any_contains_comm]
  congr 1
  rw [Bool.and_comm]

theorem nameMatchFrac_symm (sm : String → String → ℚ)
    (hsym : ∀ a b, sm a b = sm b a) (c1 c2 : ContactV1) :
    nameMatchFrac sm c1 c2 = nameMatchFrac sm c2 c1 := by
  unfold nameMatchFrac
  dsimp only
  rw [matching_parts_symm sm hsym, Nat.max_comm]

theorem is_duplicate_symm (sm : String → String → ℚ) (np : String → Option String)
    (hsym : ∀ a b, sm a b = sm b a) (c1 c2 : ContactV1) :
    is_duplicate sm np c1 c2 = is_duplicate sm np c2 c1 := by
  unfold is_duplicate
  rw [havePhoneMatch_symm, nameMatchFrac_symm sm hsym, Bool.or_comm c1.isEmpty]

/-- The concrete similarity model is symmetric (as `SequenceMatcher`-style
total match counting is on identical-vs-distinct pairs). -/
theorem smModel_symm (a b : String) : smModel a b = smModel b a := by
  unfold smModel
  by_cases h : a = b
  · simp [h]
  · simp [h, Ne.symm h]

/-- Claim C10: the duplicate decision is symmetric, with and without the
memo cache — provided the external string-similarity capability is itself
symmetric (the token-match count, the max-based denominator and the
phone-set intersection are order-independent, and the cache key is the
sorted identity pair): swapping the operands never changes the decision,
and asking the cached decision in either order returns the same value as
the uncached computation. -/
theorem claim10_theorem (sm : String → String → ℚ) (np : String → Option String)
    (hsym : ∀ a b, sm a b = sm b a) (c1 c2 : ContactV1) (i j : Nat) :
    is_duplicate sm np c1 c2 = is_duplicate sm np c2 c1 ∧
    (is_duplicate_cached sm np [] i j c1 c2).1 = is_duplicate sm np c1 c2 ∧
    (is_duplicate_cached sm np (is_duplicate_cached sm np [] i j c1 c2).2
        j i c2 c1).1 =
      (is_duplicate_cached sm np [] i j c1 c2).1 := by
  refine ⟨is_duplicate_symm sm np hsym c1 c2, ?_, ?_⟩
  · by_cases hg : (c1.isEmpty || c2.isEmpty) = true
    · unfold is_duplicate_cached is_duplicate
      rw [if_pos hg, if_pos hg]
    · unfold is_duplicate_cached
      rw [if_neg hg]
      rfl
  · by_cases hg : (c1.isEmpty || c2.isEmpty) = true
    · have hg2 : (c2.isEmpty || c1.isEmpty) = true := by rw [Bool.or_comm]; exact hg
      unfold is_duplicate_cached
      rw [if_pos hg, if_pos hg2]
    · have hg2 : ¬(c2.isEmpty || c1.isEmpty) = true := by rw [Bool.or_comm]; exact hg
      have h1 : is_duplicate_cached sm np [] i j c1 c2 =
          (is_duplicate sm np c1 c2,
            [((min i j, max i j), is_duplicate sm np c1 c2)]) := by
        unfold is_duplicate_cached
        rw [if_neg hg]
        rfl
      rw [h1]
      unfold is_duplicate_cached
      rw [if_neg hg2]
      have hkey : (min j i, max j i) = (min i j, max i j) := by
        rw [Nat.min_comm, Nat.max_comm]
      rw [hkey]
      simp [List.lookup]

/-- Witness for `claim10_theorem` at a concrete symmetric similarity model
and a concrete contact pair. -/
theorem claim10_witness :
    is_duplicate smModel npNone cAnnaMariaS cAnnaMariaM =
        is_duplicate smModel npNone cAnnaMariaM cAnnaMariaS ∧
      (is_duplicate_cached smModel npNone [] 0 1 cAnnaMariaS cAnnaMariaM).1 =
        is_duplicate smModel npNone cAnnaMariaS cAnnaMariaM ∧
      (is_duplicate_cached smModel npNone
          (is_duplicate_cached smModel npNone [] 0 1 cAnnaMariaS cAnnaMariaM).2
          1 0 cAnnaMariaM cAnnaMariaS).1 =
        (is_duplicate_cached smModel npNone [] 0 1 cAnnaMariaS cAnnaMariaM).1 :=
  claim10_theorem smModel npNone smModel_symm cAnnaMariaS cAnnaMariaM 0 1

/-! ### Claim C8 — phone-list normalization -/

/-- Claim C8, counterexample: the legacy `normalize_phone_list` performs no
deduplication: two spellings of one number yield the same canonical form
twice, so the output is not deduplicated by canonical form. -/
theorem claim8_counterexample :
    normalize_phone_list npBerlin [.str "+4930901820", .str "0049 30 901820"] =
        ["+4930901820", "+4930901820"] ∧
      ¬ (["+4930901820", "+4930901820"] : List String).Nodup := by
  exact ⟨by decide, by decide⟩

/-- Claim C8, amended: `normalize_list([]) = []` holds in both
implementations; the `PhoneProcessor` normalizer deduplicates by canonical
form (no form appears twice, first-seen order) and splits strings on comma
and semicolon only; the legacy normalizer flattens exactly one level of
nesting and keeps the parseable canonical forms in order, with no
deduplication and no delimiter splitting. -/
theorem claim8_amended :
    (∀ (np : String → Option String) (phones : PhonesInput),
      (pp_normalize_phone_list np phones).Nodup) ∧
    (∀ np : String → Option String, pp_normalize_phone_list np (.list []) = []) ∧
    (∀ np : String → Option String, normalize_phone_list np [] = []) ∧
    (∀ (np : String → Option String) (vals : List PyVal),
      normalize_phone_list np vals = vals.flatMap (fun v =>
        match v with
        | .str s => (normalize_phone np (pyTrim s)).toList
        | .list l => l.filterMap (fun sub => normalize_phone np (pyTrim sub)))) := by
  refine ⟨?_, fun np => rfl, fun np => rfl, ?_⟩
  · intro np phones
    cases phones with
    | str s =>
      by_cases hs : s.isEmpty
      · simp [pp_normalize_phone_list, hs]
      · simpa [pp_normalize_phone_list, hs] using (dedupKeep_spec _ []).1
    | list l =>
      by_cases hl : l.isEmpty
      · simp [pp_normalize_phone_list, hl]
      · simpa [pp_normalize_phone_list, hl] using (dedupKeep_spec _ []).1
  · intro np vals
    induction vals with
    | nil => rfl
    | cons v rest ih =>
      cases v with
      | str s =>
        cases hn : normalize_phone np (pyTrim s) <;>
          simp [normalize_phone_list, hn, ih, Option.toList]
      | list l => simp [normalize_phone_list, ih]

end ContactsCleaner

namespace ContactsCleaner

theorem absorb_cons_skip (dup : Nat → Nat → DupCache → Bool × DupCache) (i j : Nat)
    (rest g p : List Nat) (c : DupCache) (h : ¬(j ≠ i ∧ j ∉ p)) :
    absorb dup i (j :: rest) g p c = absorb dup i rest g p c := by
  simp only [absorb]; rw [if_neg h]

theorem absorb_cons_no (dup : Nat → Nat → DupCache → Bool × DupCache) (i j : Nat)
    (rest g p : List Nat) (c : DupCache) (h : j ≠ i ∧ j ∉ p)
    (hr : (dup i j c).1 = false) :
    absorb dup i (j :: rest) g p c = absorb dup i rest g p (dup i j c).2 := by
  simp only [absorb]; rw [if_pos h, hr]; simp

theorem absorb_cons_yes (dup : Nat → Nat → DupCache → Bool × DupCache) (i j : Nat)
    (rest g p : List Nat) (c : DupCache) (h : j ≠ i ∧ j ∉ p)
    (hr : (dup i j c).1 = true) :
    absorb dup i (j :: rest) g p c =
      absorb dup i rest (g ++ [j]) (j :: p) (dup i j c).2 := by
  simp only [absorb]; rw [if_pos h, hr]; simp

theorem absorb_spec (dup : Nat → Nat → DupCache → Bool × DupCache) (i : Nat)
    (cands : List Nat) : ∀ (group processed : List Nat) (cache : DupCache),
    ∃ extra : List Nat,
      (absorb dup i cands group processed cache).1 = group ++ extra ∧
      (∀ x ∈ extra, x ≠ i ∧ x ∉ processed ∧ x ∈ cands) ∧
      extra.Nodup ∧
      (∀ x, x ∈ (absorb dup i cands group processed cache).2.1 ↔
        x ∈ processed ∨ x ∈ extra) := by
  induction cands with
  | nil =>
    intro group processed cache
    exact ⟨[], by simp [absorb], by simp, by simp, by simp [absorb]⟩
  | cons j rest ih =>
    intro group processed cache
    by_cases hcond : j ≠ i ∧ j ∉ processed
    · cases hr : (dup i j cache).1 with
      | false =>
        rw [absorb_cons_no dup i j rest group processed cache hcond hr]
        exact ih group processed (dup i j cache).2 |>.imp (fun extra ⟨e1, e2, e3, e4⟩ =>
          ⟨e1, fun x hx => ⟨(e2 x hx).1, (e2 x hx).2.1,
            List.mem_cons_of_mem j (e2 x hx).2.2⟩, e3, e4⟩)
      | true =>
        rw [absorb_cons_yes dup i j rest group processed cache hcond hr]
        obtain ⟨extra, e1, e2, e3, e4⟩ := ih (group ++ [j]) (j :: processed) (dup i j cache).2
        refine ⟨j :: extra, ?_, ?_, ?_, ?_⟩
        · rw [e1]; simp
        · intro x hx
          rcases List.mem_cons.mp hx with h | h
          · subst h; exact ⟨hcond.1, hcond.2, List.mem_cons_self _ _⟩
          · obtain ⟨x1, x2, x3⟩ := e2 x h
            exact ⟨x1, fun hxp => x2 (List.mem_cons_of_mem j hxp),
              List.mem_cons_of_mem j x3⟩
        · refine List.Nodup.cons (fun hj => ?_) e3
          exact (e2 j hj).2.1 (List.mem_cons_self j processed)
        · intro x
          rw [e4 x]
          simp only [List.mem_cons]
          tauto
    · rw [absorb_cons_skip dup i j rest group processed cache hcond]
      exact ih group processed cache |>.imp (fun extra ⟨e1, e2, e3, e4⟩ =>
        ⟨e1, fun x hx => ⟨(e2 x hx).1, (e2 x hx).2.1,
          List.mem_cons_of_mem j (e2 x hx).2.2⟩, e3, e4⟩)

end ContactsCleaner

namespace ContactsCleaner

theorem groupStep_inv (cand : Nat → List Nat) (dup : Nat → Nat → DupCache → Bool × DupCache)
    (n : Nat) (hc : ∀ i x, x ∈ cand i → x < n) (st : GroupState) (i : Nat)
    (hi : i < n) (h : GInv n st) : GInv n (groupStep cand dup st i) := by
  obtain ⟨hnd, hsub, hlt⟩ := h
  unfold groupStep
  by_cases hp : i ∈ st.processed
  · rw [if_pos hp]; exact ⟨hnd, hsub, hlt⟩
  · rw [if_neg hp]
    obtain ⟨extra, e1, e2, e3, e4⟩ := absorb_spec dup i (cand i) [i] st.processed st.cache
    dsimp only
    have hg : (absorb dup i (cand i) [i] st.processed st.cache).1 = i :: extra := by
      rw [e1]; rfl
    have hpmem : ∀ x, x ∈ (absorb dup i (cand i) [i] st.processed st.cache).2.1 → x < n := by
      intro x hx
      rcases (e4 x).mp hx with h2 | h2
      · exact hlt x h2
      · exact hc i x (e2 x h2).2.2
    by_cases hlen : (absorb dup i (cand i) [i] st.processed st.cache).1.length > 1
    · rw [if_pos hlen]
      refine ⟨?_, ?_, ?_⟩
      · simp only [List.flatten_append, List.flatten_cons, List.flatten_nil,
          List.append_nil, hg]
        rw [List.nodup_append]
        refine ⟨hnd, ?_, ?_⟩
        · refine List.Nodup.cons (fun hmem => ?_) e3
          exact (e2 i hmem).1 rfl
        · intro x hx hx2
          have hxp := hsub x hx
          rcases List.mem_cons.mp hx2 with h2 | h2
          · subst h2; exact hp hxp
          · exact (e2 x h2).2.1 hxp
      · intro x hx
        simp only [List.flatten_append, List.flatten_cons, List.flatten_nil,
          List.append_nil, hg, List.mem_append] at hx
        rcases hx with hx | hx
        · exact List.mem_cons_of_mem i ((e4 x).mpr (Or.inl (hsub x hx)))
        · rcases List.mem_cons.mp hx with h2 | h2
          · subst h2; exact List.mem_cons_self _ _
          · exact List.mem_cons_of_mem i ((e4 x).mpr (Or.inr h2))
      · intro x hx
        rcases List.mem_cons.mp hx with h2 | h2
        · subst h2; exact hi
        · exact hpmem x h2
    · rw [if_neg hlen]
      refine ⟨hnd, ?_, ?_⟩
      · intro x hx
        exact List.mem_cons_of_mem i ((e4 x).mpr (Or.inl (hsub x hx)))
      · intro x hx
        rcases List.mem_cons.mp hx with h2 | h2
        · subst h2; exact hi
        · exact hpmem x h2

theorem buildGroups_inv (cand : Nat → List Nat) (dup : Nat → Nat → DupCache → Bool × DupCache)
    (n : Nat) (hc : ∀ i x, x ∈ cand i → x < n) : GInv n (buildGroups cand dup n) := by
  unfold buildGroups
  refine List.foldlRecOn (List.range n) (groupStep cand dup) ⟨[], [], []⟩ ?_ ?_
  · exact ⟨by simp, by simp, by simp⟩
  · intro st hst a ha
    exact groupStep_inv cand dup n hc st a (List.mem_range.mp ha) hst

end ContactsCleaner

namespace ContactsCleaner

theorem indexGet_bucketAdd (idx : List (String × List Nat)) (k0 : String) (i0 : Nat)
    (k : String) (x : Nat) (h : x ∈ indexGet (bucketAdd idx k0 i0) k) :
    x ∈ indexGet idx k ∨ x = i0 := by
  induction idx with
  | nil =>
    unfold bucketAdd indexGet at h
    by_cases hk : k = k0
    · subst hk
      simp [List.lookup] at h
      exact Or.inr h
    · have hb : (k == k0) = false := by simp [hk]
      simp [List.lookup, hb] at h
  | cons hd tl ih =>
    obtain ⟨kh, lh⟩ := hd
    unfold bucketAdd at h
    by_cases hk : kh = k0
    · subst hk
      by_cases hkk : k = kh
      · subst hkk
        simp only [if_pos rfl] at h
        unfold indexGet at h ⊢
        simp [List.lookup] at h ⊢
        rcases h with h | h
        · exact Or.inl h
        · exact Or.inr h
      · have hb : (k == kh) = false := by simp [hkk]
        simp only [if_pos rfl] at h
        unfold indexGet at h ⊢
        simp [List.lookup, hb] at h ⊢
        exact Or.inl h
    · rw [if_neg hk] at h
      by_cases hkk : k = kh
      · subst hkk
        unfold indexGet at h ⊢
        simp [List.lookup] at h ⊢
        exact Or.inl h
      · have hb : (k == kh) = false := by simp [hkk]
        unfold indexGet at h ⊢
        simp only [List.lookup, hb] at h ⊢
        exact ih h

theorem create_contact_index_lt (contacts : List ContactV1) (k : String) (x : Nat)
    (h : x ∈ indexGet (create_contact_index contacts) k) : x < contacts.length := by
  have main : ∀ (l : List (Nat × ContactV1)) (idx0 : List (String × List Nat)),
      (∀ p ∈ l, p.1 < contacts.length) →
      (∀ k2 y, y ∈ indexGet idx0 k2 → y < contacts.length) →
      ∀ k2 y, y ∈ indexGet (l.foldl (fun idx ic =>
        let key := (pyLower (get_contact_name ic.2)).take 3
        if key.isEmpty then idx else bucketAdd idx key ic.1) idx0) k2 →
        y < contacts.length := by
    intro l
    induction l with
    | nil => intro idx0 _ hidx k2 y hy; exact hidx k2 y hy
    | cons a t ih =>
      intro idx0 hp hidx k2 y hy
      simp only [List.foldl_cons] at hy
      refine ih _ (fun p hp2 => hp p (List.mem_cons_of_mem a hp2)) ?_ k2 y hy
      intro k3 z hz
      by_cases hkey : ((pyLower (get_contact_name a.2)).take 3).isEmpty
      · rw [if_pos hkey] at hz; exact hidx k3 z hz
      · rw [if_neg hkey] at hz
        rcases indexGet_bucketAdd idx0 _ a.1 k3 z hz with h2 | h2
        · exact hidx k3 z h2
        · subst h2; exact hp a (List.mem_cons_self a t)
  exact main contacts.enum [] (fun p hp => List.fst_lt_of_mem_enum hp)
    (fun k2 y hy => by simp [indexGet, List.lookup] at hy) k x h

theorem candidatesOf_lt (contacts : List ContactV1) (i x : Nat)
    (h : x ∈ candidatesOf contacts (create_contact_index contacts) i) :
    x < contacts.length := by
  unfold candidatesOf at h
  by_cases hkey : ((pyLower (get_contact_name (nth contacts i))).take 3).isEmpty
  · rw [if_pos hkey] at h; simp at h
  · rw [if_neg hkey] at h
    rcases List.mem_append.mp h with h2 | h2
    · exact create_contact_index_lt contacts _ x h2
    · obtain ⟨t, _, h3⟩ := List.mem_flatMap.mp h2
      exact create_contact_index_lt contacts _ x h3

end ContactsCleaner


namespace ContactsCleaner

theorem flatten_map_singleton (l : List Nat) : (l.map (fun i => [i])).flatten = l := by
  induction l with
  | nil => rfl
  | cons a t ih => simp [ih]

theorem mergeGroupsOf_inv (sm : String → String → ℚ) (np : String → Option String)
    (contacts : List ContactV1) :
    GInv contacts.length (mergeGroupsOf sm np contacts) := by
  unfold mergeGroupsOf
  exact buildGroups_inv _ _ _ (fun i x hx => candidatesOf_lt contacts i x hx)

theorem groups_perm_filter (sm : String → String → ℚ) (np : String → Option String)
    (contacts : List ContactV1) :
    (mergeGroupsOf sm np contacts).groups.flatten.Perm
      ((List.range contacts.length).filter
        (fun i => (mergeGroupsOf sm np contacts).groups.any (fun g => g.contains i))) := by
  obtain ⟨hnd, hsub, hlt⟩ := mergeGroupsOf_inv sm np contacts
  rw [List.perm_ext_iff_of_nodup hnd (List.Nodup.filter _ (List.nodup_range _))]
  intro x
  simp only [List.mem_filter, List.mem_range, List.any_eq_true, List.elem_eq_mem,
    decide_eq_true_eq]
  constructor
  · intro hx
    refine ⟨hlt x (hsub x hx), ?_⟩
    obtain ⟨g, hg, hxg⟩ := List.mem_flatten.mp hx
    exact ⟨g, hg, hxg⟩
  · rintro ⟨-, g, hg, hxg⟩
    exact List.mem_flatten.mpr ⟨g, hg, hxg⟩

/-- C2: the grouping step of `merge_duplicates` partitions the batch: the
clusters (multi-member merge groups plus one singleton per pass-through
record) together contain every input position exactly once, and the merged
output holds exactly one record per cluster. -/
theorem claim2_theorem (mergeFn : List ContactV1 → ContactV1)
    (sm : String → String → ℚ) (np : String → Option String)
    (contacts : List ContactV1) :
    (clustersOf sm np contacts).flatten.Perm (List.range contacts.length) ∧
    (merge_duplicates mergeFn sm np contacts).length =
      (clustersOf sm np contacts).length := by
  constructor
  · unfold clustersOf passThroughOf
    dsimp only
    rw [List.flatten_append, flatten_map_singleton]
    refine List.Perm.trans (List.Perm.append_right _ (groups_perm_filter sm np contacts)) ?_
    exact List.filter_append_perm _ (List.range contacts.length)
  · by_cases he : contacts.isEmpty
    · rw [List.isEmpty_iff] at he
      subst he
      rfl
    · unfold merge_duplicates clustersOf
      rw [if_neg he]
      simp

end ContactsCleaner

namespace ContactsCleaner

theorem isPrefixOf_self (l : List Char) : l.isPrefixOf l = true := by
  induction l with
  | nil => rfl
  | cons a t ih => simp [List.isPrefixOf, ih]

theorem strIn_self (s : String) : strIn s s = true := by
  unfold strIn
  rw [List.any_eq_true]
  exact ⟨s.toList, (List.mem_tails _ _).mpr (List.suffix_refl _), isPrefixOf_self _⟩

theorem is_name_variant_eq (fzGt : String → String → Bool)
    (hfz : ∀ a b, a ≠ b → a ∈ c9Toks → b ∈ c9Toks → fzGt a b = false)
    (a b : String) (ha : pyLower a ∈ c9Toks) (hb : pyLower b ∈ c9Toks) :
    is_name_variant fzGt a b = is_name_variant fzNever a b := by
  unfold is_name_variant fzNever
  by_cases hg : (["dr.", "dr", "md", "phd"].any
      (fun x => x = pyLower a || x = pyLower b)) = true
  · rw [if_pos hg, if_pos hg]
  · rw [if_neg hg, if_neg hg]
    by_cases heq : pyLower a = pyLower b
    · rw [heq, strIn_self]
      rfl
    · rw [hfz (pyLower a) (pyLower b) heq ha hb]

theorem addPartScan_congr (fzGt : String → String → Bool)
    (hfz : ∀ a b, a ≠ b → a ∈ c9Toks → b ∈ c9Toks → fzGt a b = false)
    (part : String) (hp : pyLower part ∈ c9Toks) :
    ∀ l : List String, (∀ p ∈ l, pyLower p ∈ c9Toks) →
    addPartScan fzGt part l = addPartScan fzNever part l := by
  intro l
  induction l with
  | nil => intro _; rfl
  | cons e rest ih =>
    intro hl
    have he := hl e (List.mem_cons_self _ _)
    have hrest : ∀ p ∈ rest, pyLower p ∈ c9Toks :=
      fun p hp2 => hl p (List.mem_cons_of_mem _ hp2)
    simp only [addPartScan, is_name_variant_eq fzGt hfz e part he hp,
      is_name_variant_eq fzGt hfz part e hp he, ih hrest]

theorem addPartScan_mem (fz : String → String → Bool) (part : String) :
    ∀ (l l' : List String), addPartScan fz part l = some l' →
    ∀ p ∈ l', p ∈ l ∨ p = part := by
  intro l
  induction l with
  | nil => intro l' h; simp [addPartScan] at h
  | cons e rest ih =>
    intro l' h p hp
    unfold addPartScan at h
    by_cases h1 : is_name_variant fz e part = true
    · rw [if_pos h1] at h
      by_cases h2 : (part.length > e.length &&
          !(is_initial e && !is_initial part)) = true
      · rw [if_pos h2] at h
        cases h
        rcases List.mem_cons.mp hp with h3 | h3
        · exact Or.inr h3
        · exact Or.inl (List.mem_cons_of_mem _ h3)
      · rw [if_neg h2] at h
        cases h
        exact Or.inl hp
    · rw [if_neg h1] at h
      by_cases h2 : is_name_variant fz part e = true
      · rw [if_pos h2] at h
        cases h
        exact Or.inl hp
      · rw [if_neg h2] at h
        cases hs : addPartScan fz part rest with
        | none =>
          rw [hs] at h
          exact Option.noConfusion h
        | some l2 =>
          rw [hs] at h
          injection h with h2
          subst h2
          rcases List.mem_cons.mp hp with h3 | h3
          · exact Or.inl (h3 ▸ List.mem_cons_self _ _)
          · rcases ih l2 hs p h3 with h4 | h4
            · exact Or.inl (List.mem_cons_of_mem _ h4)
            · exact Or.inr h4

theorem add_part_congr (fzGt : String → String → Bool)
    (hfz : ∀ a b, a ≠ b → a ∈ c9Toks → b ∈ c9Toks → fzGt a b = false)
    (st : List String × List String) (part : String)
    (hst : ∀ p ∈ st.1, pyLower p ∈ c9Toks) (hp : pyLower part ∈ c9Toks) :
    add_part fzGt st part = add_part fzNever st part ∧
    ∀ p ∈ (add_part fzGt st part).1, pyLower p ∈ c9Toks := by
  obtain ⟨all_parts, seen⟩ := st
  unfold add_part
  dsimp only at hst ⊢
  by_cases h1 : seen.contains (pyLower part) = true
  · rw [if_pos h1, if_pos h1]
    exact ⟨rfl, hst⟩
  · rw [if_neg h1, if_neg h1]
    by_cases h2 : (is_initial part && !keep_initial part all_parts) = true
    · rw [if_pos h2, if_pos h2]
      exact ⟨rfl, hst⟩
    · rw [if_neg h2, if_neg h2]
      rw [addPartScan_congr fzGt hfz part hp all_parts hst]
      refine ⟨rfl, ?_⟩
      cases hs : addPartScan fzNever part all_parts with
      | none =>
        intro p hmem
        rcases List.mem_append.mp hmem with h3 | h3
        · exact hst p h3
        · rw [List.mem_singleton.mp h3]; exact hp
      | some l2 =>
        intro p hmem
        rcases addPartScan_mem fzNever part all_parts l2 hs p hmem with h3 | h3
        · exact hst p h3
        · rw [h3]; exact hp

theorem mergeFold_congr (fzGt : String → String → Bool)
    (hfz : ∀ a b, a ≠ b → a ∈ c9Toks → b ∈ c9Toks → fzGt a b = false) :
    ∀ (l : List String)
      (st : List String × List String × (List String × List String)),
    (∀ p ∈ l, pyLower p ∈ c9Toks) → (∀ p ∈ st.2.2.1, pyLower p ∈ c9Toks) →
    l.foldl (mergeStep fzGt) st = l.foldl (mergeStep fzNever) st := by
  intro l
  induction l with
  | nil => intro st _ _; rfl
  | cons part rest ih =>
    intro st hl hst
    have hp := hl part (List.mem_cons_self _ _)
    have hrest : ∀ p ∈ rest, pyLower p ∈ c9Toks :=
      fun p hp2 => hl p (List.mem_cons_of_mem _ hp2)
    obtain ⟨prefParts, sufParts, inner⟩ := st
    simp only [List.foldl_cons]
    have hstep : mergeStep fzGt (prefParts, sufParts, inner) part
        = mergeStep fzNever (prefParts, sufParts, inner) part ∧
        ∀ p ∈ (mergeStep fzGt (prefParts, sufParts, inner) part).2.2.1,
          pyLower p ∈ c9Toks := by
      unfold mergeStep
      dsimp only
      by_cases hpref : NAME_PREFIXES.contains (rstripDot (pyUpper part)) = true
      · rw [if_pos hpref, if_pos hpref]
        exact ⟨rfl, hst⟩
      · rw [if_neg hpref, if_neg hpref]
        by_cases hsuf : NAME_SUFFIXES.contains (rstripDot (pyUpper part)) = true
        · rw [if_pos hsuf, if_pos hsuf]
          exact ⟨rfl, hst⟩
        · rw [if_neg hsuf, if_neg hsuf]
          obtain ⟨hc1, hc2⟩ := add_part_congr fzGt hfz inner part hst hp
          exact ⟨by rw [hc1], hc2⟩
    have h1 := hstep.1
    have h2 := hstep.2
    rw [h1] at h2
    rw [h1]
    exact ih _ hrest h2

/-- C9: merging the names `"Dr. James Wilson"` and `"Jim Wilson MD"` yields
exactly `"Dr. Jim James Wilson MD"` whenever the fuzzy nickname scorer stays
at or below its threshold on every pair of distinct lower-cased tokens of the
two names (as the real `fuzz.ratio` does: all its scores here are ≤ 80), so
prefix and suffix are retained and both first-name variants survive. -/
theorem claim9_theorem (fzGt : String → String → Bool)
    (hfz : ∀ a b, a ≠ b → a ∈ c9Toks → b ∈ c9Toks → fzGt a b = false) :
    merge_names fzGt "Dr. James Wilson" "Jim Wilson MD" = "Dr. Jim James Wilson MD" := by
  have hc : merge_names fzGt "Dr. James Wilson" "Jim Wilson MD"
      = merge_names fzNever "Dr. James Wilson" "Jim Wilson MD" := by
    unfold merge_names
    dsimp only
    rw [mergeFold_congr fzGt hfz
      (normalize_name (normalize_name_order "Dr. James Wilson") ++
        normalize_name (normalize_name_order "Jim Wilson MD"))
      ([], [], ([], [])) (by decide) (fun p hp => absurd hp (List.not_mem_nil p))]
  rw [hc]
  decide

/-- Witness for C9: the never-matching scorer satisfies the hypothesis, and
the merge evaluates to the stated name. -/
theorem claim9_witness :
    merge_names fzNever "Dr. James Wilson" "Jim Wilson MD" = "Dr. Jim James Wilson MD" :=
  claim9_theorem fzNever (fun _ _ _ _ _ => rfl)

end ContactsCleaner
